import Mathlib

/-
Shallow embedding of the virtual-memory simulator (src/vm.c).

Modelling conventions:
* The framework constants NR_PTES_PER_PAGE and NR_PAGEFRAMES are not part of
  src/vm.c (they live in the framework headers), so they are threaded through
  every definition as parameters npp and npf.
* Page tables are total functions from outer index to an optional directory;
  a directory is a total function from inner index to a PTE.  Indices at or
  beyond npp correspond to memory that the C program never touches.
* Heap allocation (malloc of a pte directory at vm.c:72 and vm.c:200, and of
  the child process at vm.c:195) is modelled as zero-initialized memory:
  bool fields false, integers 0, pointers null.  The simulator relies on the
  freshly obtained heap pages being zeroed.
* A C null-pointer dereference (free_page or handle_page_fault on a VPN whose
  outer directory was never allocated) is modelled by returning none.
* mapcounts entries are unbounded naturals.  The C type is a 32-bit unsigned
  int; no claim below exercises a state in which a count wraps, and the one
  decrement free_page performs is guarded by the count being positive in
  every statement that mentions it.
* The C sentinel return value (unsigned)-1 of alloc_page is modelled as none.
-/

namespace VM

/-- A page table entry, mirroring struct pte: valid, writable,
COW-eligibility bit (called private in the C source, a reserved word in
Lean, hence priv here) and the mapped physical frame number. -/
structure PTE where
  valid : Bool := false
  writable : Bool := false
  priv : Bool := false
  pfn : Nat := 0
deriving Repr, DecidableEq

/-- An inner page directory, mirroring struct pte_directory. -/
structure PteDirectory where
  ptes : Nat → PTE

/-- A two-level page table, mirroring struct pagetable: an array of
optional (lazily allocated) inner directories. -/
structure Pagetable where
  outer_ptes : Nat → Option PteDirectory

/-- A process, mirroring struct process: a PID and an owned page table.
The ready-queue linkage is carried by the State below. -/
structure Process where
  pid : Nat
  pagetable : Pagetable

/-- The global state touched by vm.c: the current process, the ready queue
of non-running processes, and the frame reference counts.  The page table
base register ptbr always aliases the current process's page table in the
C program, so it is not modelled separately. -/
structure State where
  current : Process
  processes : List Process
  mapcounts : Nat → Nat

/-- A zero-initialized directory: the model of a freshly malloc'd
struct pte_directory. -/
def emptyDir : PteDirectory := ⟨fun _ => {}⟩

/-- Overwrite the PTE at inner index q0 of a directory. -/
def updPte (d : PteDirectory) (q0 : Nat) (pte : PTE) : PteDirectory :=
  ⟨fun q => if q = q0 then pte else d.ptes q⟩

/-- Overwrite the outer slot j0 of a page table. -/
def updOuter (pt : Pagetable) (j0 : Nat) (d : Option PteDirectory) : Pagetable :=
  ⟨fun j => if j = j0 then d else pt.outer_ptes j⟩

/-- Read the PTE at (outer index j, inner index q); an absent directory
reads as an all-zero PTE (it contains no valid mapping). -/
def pteAt (pt : Pagetable) (j q : Nat) : PTE :=
  match pt.outer_ptes j with
  | some d => d.ptes q
  | none => {}

/-- Write the PTE at (j0, q0), allocating the directory if absent.
Auxiliary for the operations below; in alloc_page the directory is ensured
separately first, exactly as in the C code. -/
def setPte (pt : Pagetable) (j0 q0 : Nat) (pte : PTE) : Pagetable :=
  updOuter pt j0 (some (updPte ((pt.outer_ptes j0).getD emptyDir) q0 pte))

/-- Lazily allocate the outer slot j0 (vm.c:71-73): if null, install a
fresh zero-initialized directory. -/
def ensureDir (pt : Pagetable) (j0 : Nat) : Pagetable :=
  match pt.outer_ptes j0 with
  | none => updOuter pt j0 (some emptyDir)
  | some _ => pt

/-- Scan frames k, k+1, ... for the first one with reference count zero,
mirroring the for loops at vm.c:75 and vm.c:145.  The extra fuel argument
makes the recursion structural; with fuel at least npf - k it covers the
whole loop. -/
def scanFree (mc : Nat → Nat) (npf : Nat) : Nat → Nat → Option Nat
  | _, 0 => none
  | k, fuel + 1 =>
      if k < npf then
        if mc k = 0 then some k else scanFree mc npf (k + 1) fuel
      else none

/-- The lowest-numbered free frame, if any. -/
def findFreeFrame (npf : Nat) (mc : Nat → Nat) : Option Nat :=
  scanFree mc npf 0 npf

/-- alloc_page (vm.c:63-92).  The write-intent flag rwflag is true exactly
when rw is different from 1 (vm.c:65-66).  The inner directory is ensured
before the free-frame scan, so it is allocated even when the scan fails.
On success the PTE is overwritten with valid, writable according to
rwflag, the private bit equal to rwflag (vm.c:81-86) and the chosen frame
number; that frame's count is incremented.  Returns the new state and
some pfn, or none for the C return value (unsigned)-1. -/
def alloc_page (npp npf : Nat) (vpn rw : Nat) (s : State) : State × Option Nat :=
  let rwflag : Bool := rw != 1
  let op := vpn / npp
  let ip := vpn % npp
  let pt1 := ensureDir s.current.pagetable op
  match findFreeFrame npf s.mapcounts with
  | none => ({ s with current := { s.current with pagetable := pt1 } }, none)
  | some i =>
      let pt2 := setPte pt1 op ip { valid := true, writable := rwflag, priv := rwflag, pfn := i }
      ({ s with
          current := { s.current with pagetable := pt2 },
          mapcounts := fun f => if f = i then s.mapcounts f + 1 else s.mapcounts f },
        some i)

/-- free_page (vm.c:104-115): clear valid, writable and private, decrement
the count of the frame the PTE held, then zero the frame number.  The C
code dereferences the outer directory unconditionally; an absent directory
is a null dereference, modelled as none. -/
def free_page (npp : Nat) (vpn : Nat) (s : State) : Option State :=
  let op := vpn / npp
  let ip := vpn % npp
  match s.current.pagetable.outer_ptes op with
  | none => none
  | some d =>
      let old := (d.ptes ip).pfn
      some { s with
        current := { s.current with
          pagetable := setPte s.current.pagetable op ip
            { valid := false, writable := false, priv := false, pfn := 0 } },
        mapcounts := fun f => if f = old then s.mapcounts f - 1 else s.mapcounts f }

/-- handle_page_fault (vm.c:134-157).  The rw argument is never read by the
C body.  If the PTE's private bit is set and its frame's count is 1, the
PTE is made writable in place; if the count differs from 1 and a free
frame i exists, count of i is incremented, the PTE made writable, the old
frame's count decremented and the PTE rebound to i (vm.c:147-150, in that
order); otherwise the fault is unhandled.  An absent outer directory is a
null dereference, modelled as none. -/
def handle_page_fault (npp npf : Nat) (vpn rw : Nat) (s : State) : Option (State × Bool) :=
  let op := vpn / npp
  let ip := vpn % npp
  match s.current.pagetable.outer_ptes op with
  | none => none
  | some d =>
      let pte := d.ptes ip
      if pte.priv = true then
        if s.mapcounts pte.pfn = 1 then
          some ({ s with current := { s.current with
                    pagetable := setPte s.current.pagetable op ip { pte with writable := true } } },
                true)
        else
          match findFreeFrame npf s.mapcounts with
          | none => some (s, false)
          | some i =>
              let mc1 := fun f => if f = i then s.mapcounts f + 1 else s.mapcounts f
              let mc2 := fun f => if f = pte.pfn then mc1 f - 1 else mc1 f
              some ({ s with
                      current := { s.current with
                        pagetable := setPte s.current.pagetable op ip
                          { pte with writable := true, pfn := i } },
                      mapcounts := mc2 },
                    true)
      else some (s, false)

/-- Remove the first process with the given PID from the ready queue,
mirroring the list_for_each_safe scan plus list_del_init at
vm.c:184-192.  Returns the found process and the remaining queue in
order. -/
def removeFirst (pid : Nat) : List Process → Option (Process × List Process)
  | [] => none
  | p :: rest =>
      if p.pid = pid then some (p, rest)
      else
        match removeFirst pid rest with
        | none => none
        | some (q, rest2) => some (q, p :: rest2)

/-- The child's page table built by the fork loop (vm.c:198-215), reading
the parent's table: outer slots absent in the parent (or at or beyond npp)
stay absent (the malloc'd child struct is modelled zero-initialized);
valid parent entries are copied with writable forced off and the private
bit and pfn preserved; invalid parent entries leave the zero-initialized
child entry untouched. -/
def forkChildPT (npp : Nat) (pt : Pagetable) : Pagetable :=
  ⟨fun j =>
    if j < npp then
      match pt.outer_ptes j with
      | none => none
      | some d => some ⟨fun q =>
          if q < npp ∧ (d.ptes q).valid = true then
            { valid := true, writable := false, priv := (d.ptes q).priv, pfn := (d.ptes q).pfn }
          else {}⟩
    else none⟩

/-- The parent's page table after the fork loop: every valid entry within
range has its writable bit forced off (vm.c:206); everything else is
untouched. -/
def forkParentPT (npp : Nat) (pt : Pagetable) : Pagetable :=
  ⟨fun j =>
    if j < npp then
      match pt.outer_ptes j with
      | none => none
      | some d => some ⟨fun q =>
          if q < npp ∧ (d.ptes q).valid = true then { d.ptes q with writable := false }
          else d.ptes q⟩
    else pt.outer_ptes j⟩

/-- The inner fork loop's effect on mapcounts for one directory: one
increment of mapcounts at the mapped pfn per valid entry (vm.c:211). -/
def bumpDir (npp : Nat) (d : PteDirectory) (mc : Nat → Nat) : Nat → Nat :=
  (List.range npp).foldl
    (fun m q =>
      if (d.ptes q).valid = true then
        fun f => if f = (d.ptes q).pfn then m f + 1 else m f
      else m)
    mc

/-- The whole fork loop's effect on mapcounts (vm.c:198-215): skip absent
directories, bump per valid entry. -/
def forkCounts (npp : Nat) (pt : Pagetable) (mc : Nat → Nat) : Nat → Nat :=
  (List.range npp).foldl
    (fun m j =>
      match pt.outer_ptes j with
      | none => m
      | some d => bumpDir npp d m)
    mc

/-- switch_process (vm.c:179-220).  If a process with the PID is in the
ready queue: enqueue the current process at the tail, dequeue the found
one and make it current (the queue scan finds the first match; the C code
appends current before deleting the match, which is equivalent because
the match was found among the pre-append elements).  Otherwise fork: build
the child from the current process's table, force the parent's shared
entries non-writable, bump the shared frames' counts, enqueue the parent
and make the child current. -/
def switch_process (npp : Nat) (pid : Nat) (s : State) : State :=
  match removeFirst pid s.processes with
  | some (p, rest) =>
      { current := p, processes := rest ++ [s.current], mapcounts := s.mapcounts }
  | none =>
      let child : Process := { pid := pid, pagetable := forkChildPT npp s.current.pagetable }
      let parent : Process := { s.current with pagetable := forkParentPT npp s.current.pagetable }
      { current := child,
        processes := s.processes ++ [parent],
        mapcounts := forkCounts npp s.current.pagetable s.mapcounts }

/-- The empty initial state: one current process (PID 0) with an empty
page table, an empty ready queue, and all frame counts zero. -/
def init : State :=
  { current := { pid := 0, pagetable := ⟨fun _ => none⟩ },
    processes := [],
    mapcounts := fun _ => 0 }

/-- One invocation of one of the four operations. -/
inductive Op where
  | alloc (vpn rw : Nat)
  | free (vpn : Nat)
  | fault (vpn rw : Nat)
  | switch (pid : Nat)

/-- Execute one operation; none when the C code would dereference a null
directory pointer. -/
def step (npp npf : Nat) (s : State) : Op → Option State
  | .alloc vpn rw => some (alloc_page npp npf vpn rw s).1
  | .free vpn => free_page npp vpn s
  | .fault vpn rw => (handle_page_fault npp npf vpn rw s).map Prod.fst
  | .switch pid => some (switch_process npp pid s)

/-- Execute a sequence of operations. -/
def run (npp npf : Nat) (s : State) : List Op → Option State
  | [] => some s
  | o :: os => (step npp npf s o).bind fun s2 => run npp npf s2 os

/-- Precondition under which an operation is used as intended: VPNs lie in
the range representable by the two-level scheme, allocation targets a VPN
without a live mapping, and free targets a live mapping. -/
def guardB (npp : Nat) (s : State) : Op → Bool
  | .alloc vpn _ =>
      decide (vpn < npp * npp) && !(pteAt s.current.pagetable (vpn / npp) (vpn % npp)).valid
  | .free vpn =>
      decide (vpn < npp * npp) && (pteAt s.current.pagetable (vpn / npp) (vpn % npp)).valid
  | .fault vpn _ => decide (vpn < npp * npp)
  | .switch _ => true

/-- Execute a sequence of operations, all of which must satisfy their
guard. -/
def runG (npp npf : Nat) (s : State) : List Op → Option State
  | [] => some s
  | o :: os =>
      if guardB npp s o then (step npp npf s o).bind fun s2 => runG npp npf s2 os
      else none

/-- Contribution of one PTE to the mapper count of frame f. -/
def contrib (pte : PTE) (f : Nat) : Nat :=
  if pte.valid = true ∧ pte.pfn = f then 1 else 0

/-- Contribution of one PTE to the valid-entry count. -/
def vcontrib (pte : PTE) : Nat :=
  if pte.valid = true then 1 else 0

/-- Number of valid entries of one page table mapping frame f. -/
def mappersPT (npp : Nat) (pt : Pagetable) (f : Nat) : Nat :=
  ∑ j ∈ Finset.range npp, ∑ q ∈ Finset.range npp, contrib (pteAt pt j q) f

/-- Number of valid entries of one page table. -/
def validCountPT (npp : Nat) (pt : Pagetable) : Nat :=
  ∑ j ∈ Finset.range npp, ∑ q ∈ Finset.range npp, vcontrib (pteAt pt j q)

/-- Fold a per-process quantity over the whole process pool (current plus
ready queue). -/
def poolSum (g : Process → Nat) (s : State) : Nat :=
  g s.current + (s.processes.map g).sum

/-- Number of valid entries across all processes mapping frame f. -/
def totalMappers (npp : Nat) (s : State) (f : Nat) : Nat :=
  poolSum (fun p => mappersPT npp p.pagetable f) s

/-- Number of valid entries across all processes. -/
def totalValid (npp : Nat) (s : State) : Nat :=
  poolSum (fun p => validCountPT npp p.pagetable) s

/-- Per-pagetable sanity: every valid entry maps a frame below npf, and
invalid entries never carry the private bit. -/
def PtOk (npf : Nat) (pt : Pagetable) : Prop :=
  ∀ j q, ((pteAt pt j q).valid = true → (pteAt pt j q).pfn < npf) ∧
    ((pteAt pt j q).valid = false → (pteAt pt j q).priv = false)

/-- The reachability invariant: every frame count equals the number of
valid entries mapping that frame across all processes, and every
process's page table is sane. -/
def Inv (npp npf : Nat) (s : State) : Prop :=
  (∀ f, s.mapcounts f = totalMappers npp s f) ∧
  PtOk npf s.current.pagetable ∧ (∀ p ∈ s.processes, PtOk npf p.pagetable)

theorem pteAt_setPte (pt : Pagetable) (j0 q0 : Nat) (pte : PTE) (j q : Nat) :
    pteAt (setPte pt j0 q0 pte) j q = if j = j0 ∧ q = q0 then pte else pteAt pt j q := by
  unfold pteAt setPte updOuter updPte
  by_cases hj : j = j0
  · subst hj
    by_cases hq : q = q0
    · subst hq; simp
    · simp only [if_pos rfl, hq, and_false, if_false, if_neg hq]
      cases h : pt.outer_ptes j <;> simp [h, emptyDir, hq]
  · simp [hj]

theorem pteAt_ensureDir (pt : Pagetable) (j0 j q : Nat) :
    pteAt (ensureDir pt j0) j q = pteAt pt j q := by
  unfold pteAt ensureDir updOuter
  cases h : pt.outer_ptes j0 with
  | none =>
      by_cases hj : j = j0
      · subst hj; simp [h, emptyDir]
      · simp [hj]
  | some d => rfl

theorem ensureDir_outer_ne (pt : Pagetable) (j0 j : Nat) (hj : j ≠ j0) :
    (ensureDir pt j0).outer_ptes j = pt.outer_ptes j := by
  unfold ensureDir updOuter
  cases h : pt.outer_ptes j0 <;> simp [hj]

theorem setPte_outer_ne (pt : Pagetable) (j0 q0 : Nat) (pte : PTE) (j : Nat) (hj : j ≠ j0) :
    (setPte pt j0 q0 pte).outer_ptes j = pt.outer_ptes j := by
  unfold setPte updOuter
  simp [hj]

theorem scanFree_some (mc : Nat → Nat) (npf : Nat) :
    ∀ fuel k i, scanFree mc npf k fuel = some i →
      k ≤ i ∧ i < npf ∧ mc i = 0 ∧ ∀ j, k ≤ j → j < i → mc j ≠ 0 := by
  intro fuel
  induction fuel with
  | zero =>
      intro k i h
      simp [scanFree] at h
  | succ n ih =>
      intro k i h
      rw [scanFree] at h
      by_cases hk : k < npf
      · simp only [hk, if_true] at h
        by_cases h0 : mc k = 0
        · simp only [h0, if_pos rfl] at h
          cases h
          exact ⟨Nat.le_refl _, hk, h0, fun j hj1 hj2 => by omega⟩
        · simp only [h0, if_neg h0] at h
          have := ih (k + 1) i h
          refine ⟨by omega, this.2.1, this.2.2.1, ?_⟩
          intro j hj1 hj2
          rcases Nat.eq_or_lt_of_le hj1 with heq | hlt
          · subst heq; exact h0
          · exact this.2.2.2 j hlt hj2
      · simp [hk] at h

theorem scanFree_none (mc : Nat → Nat) (npf : Nat) :
    ∀ fuel k, npf ≤ k + fuel → scanFree mc npf k fuel = none →
      ∀ f, k ≤ f → f < npf → mc f ≠ 0 := by
  intro fuel
  induction fuel with
  | zero =>
      intro k hfk _ f hf1 hf2
      omega
  | succ n ih =>
      intro k hfk h f hf1 hf2
      rw [scanFree] at h
      have hk : k < npf := by omega
      simp only [hk, if_true] at h
      by_cases h0 : mc k = 0
      · simp [h0] at h
      · simp only [h0, if_neg h0] at h
        rcases Nat.eq_or_lt_of_le hf1 with heq | hlt
        · subst heq; exact h0
        · exact ih (k + 1) (by omega) h f hlt hf2

theorem findFreeFrame_some (npf : Nat) (mc : Nat → Nat) (i : Nat)
    (h : findFreeFrame npf mc = some i) :
    i < npf ∧ mc i = 0 ∧ ∀ j, j < i → mc j ≠ 0 := by
  have hh := scanFree_some mc npf npf 0 i h
  exact ⟨hh.2.1, hh.2.2.1, fun j hj => hh.2.2.2 j (Nat.zero_le j) hj⟩

theorem findFreeFrame_none (npf : Nat) (mc : Nat → Nat)
    (h : findFreeFrame npf mc = none) :
    ∀ f, f < npf → mc f ≠ 0 := by
  intro f hf
  exact scanFree_none mc npf npf 0 (by omega) h f (Nat.zero_le f) hf

theorem findFreeFrame_isSome (npf : Nat) (mc : Nat → Nat) (f : Nat)
    (hf : f < npf) (h0 : mc f = 0) :
    (findFreeFrame npf mc).isSome = true := by
  cases h : findFreeFrame npf mc with
  | none => exact absurd h0 (findFreeFrame_none npf mc h f hf)
  | some i => rfl

theorem findFreeFrame_eq_none (npf : Nat) (mc : Nat → Nat)
    (hfull : ∀ f, f < npf → mc f ≠ 0) :
    findFreeFrame npf mc = none := by
  cases h : findFreeFrame npf mc with
  | none => rfl
  | some i =>
      have := findFreeFrame_some npf mc i h
      exact absurd this.2.1 (hfull i this.1)

theorem sum_update (n q0 : Nat) (h h2 : Nat → Nat) (hq : q0 < n)
    (hsame : ∀ q, q ≠ q0 → h2 q = h q) :
    (∑ q ∈ Finset.range n, h2 q) + h q0 = (∑ q ∈ Finset.range n, h q) + h2 q0 := by
  have hmem : q0 ∈ Finset.range n := Finset.mem_range.mpr hq
  rw [← Finset.add_sum_erase _ h2 hmem, ← Finset.add_sum_erase _ h hmem]
  have he : ∑ q ∈ (Finset.range n).erase q0, h2 q = ∑ q ∈ (Finset.range n).erase q0, h q :=
    Finset.sum_congr rfl (fun x hx => hsame x (Finset.ne_of_mem_erase hx))
  omega

theorem sum2_update (n j0 q0 : Nat) (g g2 : Nat → Nat → Nat) (hj : j0 < n) (hq : q0 < n)
    (hsame : ∀ j q, ¬(j = j0 ∧ q = q0) → g2 j q = g j q) :
    (∑ j ∈ Finset.range n, ∑ q ∈ Finset.range n, g2 j q) + g j0 q0
      = (∑ j ∈ Finset.range n, ∑ q ∈ Finset.range n, g j q) + g2 j0 q0 := by
  have houter := sum_update n j0 (fun j => ∑ q ∈ Finset.range n, g j q)
    (fun j => ∑ q ∈ Finset.range n, g2 j q) hj
    (fun j hjne => Finset.sum_congr rfl (fun x _ => hsame j x (fun hc => hjne hc.1)))
  have hinner := sum_update n q0 (g j0) (g2 j0) hq
    (fun q hqne => hsame j0 q (fun hc => hqne hc.2))
  simp only at houter hinner
  omega

theorem mappersPT_setPte (npp : Nat) (pt : Pagetable) (j0 q0 : Nat) (pte : PTE) (f : Nat)
    (hj : j0 < npp) (hq : q0 < npp) :
    mappersPT npp (setPte pt j0 q0 pte) f + contrib (pteAt pt j0 q0) f
      = mappersPT npp pt f + contrib pte f := by
  unfold mappersPT
  have := sum2_update npp j0 q0 (fun j q => contrib (pteAt pt j q) f)
    (fun j q => contrib (pteAt (setPte pt j0 q0 pte) j q) f) hj hq
    (fun j q hne => by simp only [pteAt_setPte]; simp [hne])
  simp only at this
  rw [this, pteAt_setPte]
  simp

theorem validCountPT_setPte (npp : Nat) (pt : Pagetable) (j0 q0 : Nat) (pte : PTE)
    (hj : j0 < npp) (hq : q0 < npp) :
    validCountPT npp (setPte pt j0 q0 pte) + vcontrib (pteAt pt j0 q0)
      = validCountPT npp pt + vcontrib pte := by
  unfold validCountPT
  have := sum2_update npp j0 q0 (fun j q => vcontrib (pteAt pt j q))
    (fun j q => vcontrib (pteAt (setPte pt j0 q0 pte) j q)) hj hq
    (fun j q hne => by simp only [pteAt_setPte]; simp [hne])
  simp only at this
  rw [this, pteAt_setPte]
  simp

theorem contrib_le_mappersPT (npp : Nat) (pt : Pagetable) (j0 q0 f : Nat)
    (hj : j0 < npp) (hq : q0 < npp) :
    contrib (pteAt pt j0 q0) f ≤ mappersPT npp pt f := by
  unfold mappersPT
  have key : ∀ (F : Nat → Nat) (a : Nat), a ∈ Finset.range npp →
      F a ≤ ∑ j ∈ Finset.range npp, F j :=
    fun F a ha => Finset.single_le_sum (fun x _ => Nat.zero_le (F x)) ha
  have hin : contrib (pteAt pt j0 q0) f ≤ ∑ q ∈ Finset.range npp, contrib (pteAt pt j0 q) f :=
    key (fun q => contrib (pteAt pt j0 q) f) q0 (Finset.mem_range.mpr hq)
  exact le_trans hin
    (key (fun j => ∑ q ∈ Finset.range npp, contrib (pteAt pt j q) f) j0
      (Finset.mem_range.mpr hj))

theorem mappersPT_ensureDir (npp : Nat) (pt : Pagetable) (j0 f : Nat) :
    mappersPT npp (ensureDir pt j0) f = mappersPT npp pt f := by
  unfold mappersPT
  exact Finset.sum_congr rfl (fun j _ => Finset.sum_congr rfl (fun q _ => by
    rw [pteAt_ensureDir]))

theorem validCountPT_ensureDir (npp : Nat) (pt : Pagetable) (j0 : Nat) :
    validCountPT npp (ensureDir pt j0) = validCountPT npp pt := by
  unfold validCountPT
  exact Finset.sum_congr rfl (fun j _ => Finset.sum_congr rfl (fun q _ => by
    rw [pteAt_ensureDir]))

theorem removeFirst_pid (pid : Nat) :
    ∀ (l : List Process) (p : Process) (rest : List Process),
      removeFirst pid l = some (p, rest) → p.pid = pid := by
  intro l
  induction l with
  | nil => intro p rest h; simp [removeFirst] at h
  | cons x xs ih =>
      intro p rest h
      rw [removeFirst] at h
      by_cases hx : x.pid = pid
      · simp only [hx, if_pos rfl] at h
        cases h; exact hx
      · simp only [if_neg hx] at h
        cases hrec : removeFirst pid xs with
        | none => rw [hrec] at h; cases h
        | some pr =>
            rw [hrec] at h
            cases h
            exact ih pr.1 pr.2 (by rw [hrec])

theorem removeFirst_sum (pid : Nat) (g : Process → Nat) :
    ∀ (l : List Process) (p : Process) (rest : List Process),
      removeFirst pid l = some (p, rest) → g p + (rest.map g).sum = (l.map g).sum := by
  intro l
  induction l with
  | nil => intro p rest h; simp [removeFirst] at h
  | cons x xs ih =>
      intro p rest h
      rw [removeFirst] at h
      by_cases hx : x.pid = pid
      · simp only [hx, if_pos rfl] at h
        cases h; simp
      · simp only [if_neg hx] at h
        cases hrec : removeFirst pid xs with
        | none => rw [hrec] at h; cases h
        | some pr =>
            rw [hrec] at h
            cases h
            have := ih pr.1 pr.2 (by rw [hrec])
            simp only [List.map_cons, List.sum_cons]
            omega

theorem removeFirst_mem (pid : Nat) :
    ∀ (l : List Process) (p : Process) (rest : List Process),
      removeFirst pid l = some (p, rest) → p ∈ l ∧ ∀ x ∈ rest, x ∈ l := by
  intro l
  induction l with
  | nil => intro p rest h; simp [removeFirst] at h
  | cons x xs ih =>
      intro p rest h
      rw [removeFirst] at h
      by_cases hx : x.pid = pid
      · simp only [hx, if_pos rfl] at h
        cases h
        exact ⟨List.mem_cons_self x xs, fun y hy => List.mem_cons_of_mem x hy⟩
      · simp only [if_neg hx] at h
        cases hrec : removeFirst pid xs with
        | none => rw [hrec] at h; cases h
        | some pr =>
            rw [hrec] at h
            cases h
            have := ih pr.1 pr.2 (by rw [hrec])
            refine ⟨List.mem_cons_of_mem x this.1, ?_⟩
            intro y hy
            rcases List.mem_cons.mp hy with hy1 | hy2
            · exact List.mem_cons.mpr (Or.inl hy1)
            · exact List.mem_cons_of_mem x (this.2 y hy2)

theorem removeFirst_perm (pid : Nat) :
    ∀ (l : List Process) (p : Process) (rest : List Process),
      removeFirst pid l = some (p, rest) → l.Perm (p :: rest) := by
  intro l
  induction l with
  | nil => intro p rest h; simp [removeFirst] at h
  | cons x xs ih =>
      intro p rest h
      rw [removeFirst] at h
      by_cases hx : x.pid = pid
      · simp only [hx, if_pos rfl] at h
        cases h; exact List.Perm.refl _
      · simp only [if_neg hx] at h
        cases hrec : removeFirst pid xs with
        | none => rw [hrec] at h; cases h
        | some pr =>
            rw [hrec] at h
            cases h
            have hperm := ih pr.1 pr.2 (by rw [hrec])
            exact List.Perm.trans (List.Perm.cons x hperm) (List.Perm.swap pr.1 x pr.2)

theorem removeFirst_eq_none (pid : Nat) :
    ∀ (l : List Process), (∀ x ∈ l, x.pid ≠ pid) → removeFirst pid l = none := by
  intro l
  induction l with
  | nil => intro _; rfl
  | cons x xs ih =>
      intro hl
      rw [removeFirst]
      have hx : x.pid ≠ pid := hl x (List.mem_cons_self x xs)
      simp only [if_neg hx]
      rw [ih (fun y hy => hl y (List.mem_cons_of_mem x hy))]

theorem removeFirst_append_last (pid0 : Nat) (c : Process) (hc : c.pid = pid0) :
    ∀ (l : List Process), (∀ x ∈ l, x.pid ≠ pid0) →
      removeFirst pid0 (l ++ [c]) = some (c, l) := by
  intro l
  induction l with
  | nil => simp [removeFirst, hc]
  | cons x xs ih =>
      intro hl
      have hx : x.pid ≠ pid0 := hl x (List.mem_cons_self x xs)
      rw [List.cons_append, removeFirst]
      simp only [if_neg hx]
      rw [ih (fun y hy => hl y (List.mem_cons_of_mem x hy))]

theorem pteAt_forkChild (npp : Nat) (pt : Pagetable) (j q : Nat) :
    pteAt (forkChildPT npp pt) j q =
      if j < npp ∧ q < npp ∧ (pteAt pt j q).valid = true then
        { valid := true, writable := false,
          priv := (pteAt pt j q).priv, pfn := (pteAt pt j q).pfn }
      else {} := by
  unfold pteAt forkChildPT
  by_cases hj : j < npp
  · simp only [hj, if_pos hj, true_and]
    cases h : pt.outer_ptes j with
    | none => simp
    | some d =>
        by_cases hq : q < npp
        · by_cases hv : (d.ptes q).valid = true
          · simp [hq, hv]
          · simp [hq, hv]
        · simp [hq]
  · simp [hj]

theorem pteAt_forkParent (npp : Nat) (pt : Pagetable) (j q : Nat) :
    pteAt (forkParentPT npp pt) j q =
      if j < npp ∧ q < npp ∧ (pteAt pt j q).valid = true then
        { pteAt pt j q with writable := false }
      else pteAt pt j q := by
  unfold pteAt forkParentPT
  by_cases hj : j < npp
  · simp only [hj, if_pos hj, true_and]
    cases h : pt.outer_ptes j with
    | none => simp
    | some d =>
        by_cases hq : q < npp
        · by_cases hv : (d.ptes q).valid = true
          · simp [hq, hv]
          · simp [hq, hv]
        · simp [hq]
  · simp [hj]

theorem forkChild_outer (npp : Nat) (pt : Pagetable) (j : Nat) :
    pt.outer_ptes j = none → (forkChildPT npp pt).outer_ptes j = none := by
  intro h
  unfold forkChildPT
  by_cases hj : j < npp
  · simp [hj, h]
  · simp [hj]

theorem mappersPT_forkChild (npp : Nat) (pt : Pagetable) (f : Nat) :
    mappersPT npp (forkChildPT npp pt) f = mappersPT npp pt f := by
  unfold mappersPT
  refine Finset.sum_congr rfl (fun j hjmem => Finset.sum_congr rfl (fun q hqmem => ?_))
  have hj := Finset.mem_range.mp hjmem
  have hq := Finset.mem_range.mp hqmem
  rw [pteAt_forkChild]
  by_cases hv : (pteAt pt j q).valid = true
  · simp [hj, hq, hv, contrib]
  · simp only [hj, hq, hv, and_false, true_and, if_false]
    simp only [contrib]
    simp [hv]

theorem mappersPT_forkParent (npp : Nat) (pt : Pagetable) (f : Nat) :
    mappersPT npp (forkParentPT npp pt) f = mappersPT npp pt f := by
  unfold mappersPT
  refine Finset.sum_congr rfl (fun j hjmem => Finset.sum_congr rfl (fun q hqmem => ?_))
  have hj := Finset.mem_range.mp hjmem
  have hq := Finset.mem_range.mp hqmem
  rw [pteAt_forkParent]
  by_cases hv : (pteAt pt j q).valid = true
  · simp [hj, hq, hv, contrib]
  · simp [hj, hq, hv]

theorem validCountPT_forkChild (npp : Nat) (pt : Pagetable) :
    validCountPT npp (forkChildPT npp pt) = validCountPT npp pt := by
  unfold validCountPT
  refine Finset.sum_congr rfl (fun j hjmem => Finset.sum_congr rfl (fun q hqmem => ?_))
  have hj := Finset.mem_range.mp hjmem
  have hq := Finset.mem_range.mp hqmem
  rw [pteAt_forkChild]
  by_cases hv : (pteAt pt j q).valid = true
  · simp [hj, hq, hv, vcontrib]
  · simp only [hj, hq, hv, and_false, true_and, if_false]
    simp only [vcontrib]
    simp [hv]

theorem validCountPT_forkParent (npp : Nat) (pt : Pagetable) :
    validCountPT npp (forkParentPT npp pt) = validCountPT npp pt := by
  unfold validCountPT
  refine Finset.sum_congr rfl (fun j hjmem => Finset.sum_congr rfl (fun q hqmem => ?_))
  have hj := Finset.mem_range.mp hjmem
  have hq := Finset.mem_range.mp hqmem
  rw [pteAt_forkParent]
  by_cases hv : (pteAt pt j q).valid = true
  · simp [hj, hq, hv, vcontrib]
  · simp [hj, hq, hv]

theorem bumpDir_succ (npp : Nat) (d : PteDirectory) (mc : Nat → Nat) (f : Nat) :
    bumpDir (npp + 1) d mc f =
      bumpDir npp d mc f + contrib (d.ptes npp) f := by
  unfold bumpDir
  rw [List.range_succ, List.foldl_append]
  simp only [List.foldl_cons, List.foldl_nil]
  by_cases hv : (d.ptes npp).valid = true
  · by_cases hf : f = (d.ptes npp).pfn
    · simp [hv, hf, contrib]
    · have hfn : ¬ (d.ptes npp).pfn = f := fun h2 => hf h2.symm
      simp [hv, hf, contrib, hfn]
  · have hc : contrib (d.ptes npp) f = 0 := by simp [contrib, hv]
    simp [hv, hc]

theorem bumpDir_eq (d : PteDirectory) (mc : Nat → Nat) (f : Nat) :
    ∀ npp, bumpDir npp d mc f = mc f + ∑ q ∈ Finset.range npp, contrib (d.ptes q) f := by
  intro npp
  induction npp with
  | zero => simp [bumpDir]
  | succ n ih =>
      rw [bumpDir_succ, Finset.sum_range_succ, ih]
      omega

theorem sum_range_list (g : Nat → Nat) :
    ∀ n, ((List.range n).map g).sum = ∑ j ∈ Finset.range n, g j := by
  intro n
  induction n with
  | zero => simp
  | succ m ih =>
      rw [List.range_succ, List.map_append, List.sum_append, Finset.sum_range_succ, ih]
      simp

theorem forkCounts_aux (npp : Nat) (pt : Pagetable) (f : Nat) :
    ∀ (l : List Nat) (mc : Nat → Nat),
      (l.foldl (fun m j =>
        match pt.outer_ptes j with
        | none => m
        | some d => bumpDir npp d m) mc) f
        = mc f + (l.map (fun j =>
            match pt.outer_ptes j with
            | none => 0
            | some d => ∑ q ∈ Finset.range npp, contrib (d.ptes q) f)).sum := by
  intro l
  induction l with
  | nil => intro mc; simp
  | cons x xs ih =>
      intro mc
      simp only [List.foldl_cons, List.map_cons, List.sum_cons]
      cases h : pt.outer_ptes x with
      | none => simp only [h]; rw [ih]; omega
      | some d =>
          simp only [h]
          rw [ih, bumpDir_eq]
          omega

theorem forkCounts_eq (npp : Nat) (pt : Pagetable) (mc : Nat → Nat) (f : Nat) :
    forkCounts npp pt mc f = mc f + mappersPT npp pt f := by
  unfold forkCounts
  rw [forkCounts_aux, sum_range_list]
  unfold mappersPT
  congr 1
  refine Finset.sum_congr rfl (fun j _ => ?_)
  cases h : pt.outer_ptes j with
  | none =>
      simp only [h]
      symm
      apply Finset.sum_eq_zero
      intro q _
      simp [pteAt, h, contrib]
  | some d =>
      simp only [h]
      refine Finset.sum_congr rfl (fun q _ => ?_)
      simp [pteAt, h]

theorem sum_contrib (npf : Nat) (pte : PTE) (hlt : pte.valid = true → pte.pfn < npf) :
    ∑ f ∈ Finset.range npf, contrib pte f = vcontrib pte := by
  by_cases hv : pte.valid = true
  · have hc : ∀ f, contrib pte f = if pte.pfn = f then 1 else 0 := fun f => by
      simp [contrib, hv]
    rw [Finset.sum_congr rfl (fun f _ => hc f), Finset.sum_ite_eq]
    simp [Finset.mem_range.mpr (hlt hv), vcontrib, hv]
  · have hc : ∀ f, contrib pte f = 0 := fun f => by simp [contrib, hv]
    rw [Finset.sum_congr rfl (fun f _ => hc f)]
    simp [vcontrib, hv]

theorem sum_mappersPT (npp npf : Nat) (pt : Pagetable) (hok : PtOk npf pt) :
    ∑ f ∈ Finset.range npf, mappersPT npp pt f = validCountPT npp pt := by
  unfold mappersPT validCountPT
  rw [Finset.sum_comm]
  refine Finset.sum_congr rfl (fun j _ => ?_)
  rw [Finset.sum_comm]
  refine Finset.sum_congr rfl (fun q _ => ?_)
  exact sum_contrib npf (pteAt pt j q) (hok j q).1

theorem sum_poolSum (G : Process → Nat → Nat) (s : State) (r : Finset Nat) :
    ∑ f ∈ r, poolSum (fun p => G p f) s = poolSum (fun p => ∑ f ∈ r, G p f) s := by
  unfold poolSum
  rw [Finset.sum_add_distrib]
  congr 1
  induction s.processes with
  | nil => simp
  | cons x xs ih =>
      simp only [List.map_cons, List.sum_cons]
      rw [Finset.sum_add_distrib, ih]

theorem poolSum_congr (g g2 : Process → Nat) (s : State)
    (hc : g s.current = g2 s.current) (hl : ∀ p ∈ s.processes, g p = g2 p) :
    poolSum g s = poolSum g2 s := by
  unfold poolSum
  rw [hc, List.map_congr_left hl]

/-- Conservation follows from the invariant: the frame counts over the
frame pool sum to the number of valid PTEs across all processes. -/
theorem conservation_of_inv (npp npf : Nat) (s : State) (hInv : Inv npp npf s) :
    ∑ f ∈ Finset.range npf, s.mapcounts f = totalValid npp s := by
  obtain ⟨h1, h2, h3⟩ := hInv
  calc ∑ f ∈ Finset.range npf, s.mapcounts f
      = ∑ f ∈ Finset.range npf, totalMappers npp s f :=
        Finset.sum_congr rfl (fun f _ => h1 f)
    _ = poolSum (fun p => ∑ f ∈ Finset.range npf, mappersPT npp p.pagetable f) s :=
        sum_poolSum (fun p f => mappersPT npp p.pagetable f) s (Finset.range npf)
    _ = totalValid npp s := by
        refine poolSum_congr _ _ s ?_ ?_
        · exact sum_mappersPT npp npf s.current.pagetable h2
        · exact fun p hp => sum_mappersPT npp npf p.pagetable (h3 p hp)

theorem alloc_page_some (npp npf vpn rw : Nat) (s : State) (i : Nat)
    (hscan : findFreeFrame npf s.mapcounts = some i) :
    alloc_page npp npf vpn rw s =
      (⟨⟨s.current.pid,
          setPte (ensureDir s.current.pagetable (vpn / npp)) (vpn / npp) (vpn % npp)
            { valid := true, writable := rw != 1, priv := rw != 1, pfn := i }⟩,
        s.processes,
        fun f => if f = i then s.mapcounts f + 1 else s.mapcounts f⟩,
       some i) := by
  unfold alloc_page
  simp only [hscan]

theorem alloc_page_none (npp npf vpn rw : Nat) (s : State)
    (hscan : findFreeFrame npf s.mapcounts = none) :
    alloc_page npp npf vpn rw s =
      (⟨⟨s.current.pid, ensureDir s.current.pagetable (vpn / npp)⟩,
        s.processes, s.mapcounts⟩, none) := by
  unfold alloc_page
  simp only [hscan]

theorem free_page_some (npp vpn : Nat) (s : State) (d : PteDirectory)
    (hd : s.current.pagetable.outer_ptes (vpn / npp) = some d) :
    free_page npp vpn s =
      some ⟨⟨s.current.pid,
          setPte s.current.pagetable (vpn / npp) (vpn % npp)
            { valid := false, writable := false, priv := false, pfn := 0 }⟩,
        s.processes,
        fun f => if f = (d.ptes (vpn % npp)).pfn then s.mapcounts f - 1 else s.mapcounts f⟩ := by
  unfold free_page
  simp only [hd]

theorem hpf_nopriv (npp npf vpn rw : Nat) (s : State) (d : PteDirectory)
    (hd : s.current.pagetable.outer_ptes (vpn / npp) = some d)
    (hp : (d.ptes (vpn % npp)).priv = false) :
    handle_page_fault npp npf vpn rw s = some (s, false) := by
  unfold handle_page_fault
  simp only [hd, hp]
  simp

theorem hpf_excl (npp npf vpn rw : Nat) (s : State) (d : PteDirectory)
    (hd : s.current.pagetable.outer_ptes (vpn / npp) = some d)
    (hp : (d.ptes (vpn % npp)).priv = true)
    (hc : s.mapcounts (d.ptes (vpn % npp)).pfn = 1) :
    handle_page_fault npp npf vpn rw s =
      some (⟨⟨s.current.pid,
          setPte s.current.pagetable (vpn / npp) (vpn % npp)
            { d.ptes (vpn % npp) with writable := true }⟩,
        s.processes, s.mapcounts⟩, true) := by
  unfold handle_page_fault
  simp only [hd, hp, hc]
  simp

theorem hpf_shared_none (npp npf vpn rw : Nat) (s : State) (d : PteDirectory)
    (hd : s.current.pagetable.outer_ptes (vpn / npp) = some d)
    (hp : (d.ptes (vpn % npp)).priv = true)
    (hc : s.mapcounts (d.ptes (vpn % npp)).pfn ≠ 1)
    (hscan : findFreeFrame npf s.mapcounts = none) :
    handle_page_fault npp npf vpn rw s = some (s, false) := by
  unfold handle_page_fault
  simp only [hd, hp, hc, hscan]
  simp [hc]

theorem hpf_shared_some (npp npf vpn rw : Nat) (s : State) (d : PteDirectory) (i : Nat)
    (hd : s.current.pagetable.outer_ptes (vpn / npp) = some d)
    (hp : (d.ptes (vpn % npp)).priv = true)
    (hc : s.mapcounts (d.ptes (vpn % npp)).pfn ≠ 1)
    (hscan : findFreeFrame npf s.mapcounts = some i) :
    handle_page_fault npp npf vpn rw s =
      some (⟨⟨s.current.pid,
          setPte s.current.pagetable (vpn / npp) (vpn % npp)
            { d.ptes (vpn % npp) with writable := true, pfn := i }⟩,
        s.processes,
        fun f =>
          if f = (d.ptes (vpn % npp)).pfn then
            (if f = i then s.mapcounts f + 1 else s.mapcounts f) - 1
          else (if f = i then s.mapcounts f + 1 else s.mapcounts f)⟩, true) := by
  unfold handle_page_fault
  simp only [hd, hp, hc, hscan]
  simp [hc]

theorem switch_found (npp pid : Nat) (s : State) (p : Process) (rest : List Process)
    (hrm : removeFirst pid s.processes = some (p, rest)) :
    switch_process npp pid s =
      { current := p, processes := rest ++ [s.current], mapcounts := s.mapcounts } := by
  unfold switch_process
  rw [hrm]

theorem switch_fork (npp pid : Nat) (s : State)
    (hrm : removeFirst pid s.processes = none) :
    switch_process npp pid s =
      ⟨⟨pid, forkChildPT npp s.current.pagetable⟩,
        s.processes ++ [⟨s.current.pid, forkParentPT npp s.current.pagetable⟩],
        forkCounts npp s.current.pagetable s.mapcounts⟩ := by
  unfold switch_process
  rw [hrm]

theorem inv_alloc (npp npf vpn rw : Nat) (s : State) (hnpp : 0 < npp)
    (hvpn : vpn < npp * npp)
    (hv : (pteAt s.current.pagetable (vpn / npp) (vpn % npp)).valid = false)
    (hInv : Inv npp npf s) :
    Inv npp npf (alloc_page npp npf vpn rw s).1 := by
  obtain ⟨h1, h2, h3⟩ := hInv
  have hop : vpn / npp < npp := (Nat.div_lt_iff_lt_mul hnpp).mpr hvpn
  have hip : vpn % npp < npp := Nat.mod_lt vpn hnpp
  cases hscan : findFreeFrame npf s.mapcounts with
  | none =>
      rw [alloc_page_none npp npf vpn rw s hscan]
      refine ⟨?_, ?_, h3⟩
      · intro f
        have hm : mappersPT npp (ensureDir s.current.pagetable (vpn / npp)) f
            = mappersPT npp s.current.pagetable f := mappersPT_ensureDir npp _ _ f
        have hold := h1 f
        simp only [totalMappers, poolSum] at hold ⊢
        rw [hm]
        exact hold
      · intro j q
        rw [show pteAt (⟨s.current.pid, ensureDir s.current.pagetable (vpn / npp)⟩ :
              Process).pagetable j q = pteAt s.current.pagetable j q from pteAt_ensureDir _ _ j q]
        exact h2 j q
  | some i =>
      obtain ⟨hinpf, hizero, -⟩ := findFreeFrame_some npf s.mapcounts i hscan
      rw [alloc_page_some npp npf vpn rw s i hscan]
      refine ⟨?_, ?_, h3⟩
      · intro f
        have hset := mappersPT_setPte npp (ensureDir s.current.pagetable (vpn / npp))
          (vpn / npp) (vpn % npp)
          { valid := true, writable := rw != 1, priv := rw != 1, pfn := i } f hop hip
        rw [pteAt_ensureDir, mappersPT_ensureDir] at hset
        have hc0 : contrib (pteAt s.current.pagetable (vpn / npp) (vpn % npp)) f = 0 := by
          simp [contrib, hv]
        rw [hc0] at hset
        have hcn : contrib { valid := true, writable := rw != 1, priv := rw != 1, pfn := i } f
            = if i = f then 1 else 0 := by
          simp [contrib]
        rw [hcn] at hset
        have hold := h1 f
        simp only [totalMappers, poolSum] at hold ⊢
        by_cases hf : f = i
        · subst hf
          simp only [eq_self_iff_true, if_true, ite_true] at hset ⊢
          omega
        · have hfi : ¬ i = f := fun h => hf h.symm
          simp only [if_neg hf, if_neg hfi] at hset ⊢
          omega
      · intro j q
        have hpt : pteAt (setPte (ensureDir s.current.pagetable (vpn / npp)) (vpn / npp)
              (vpn % npp) { valid := true, writable := rw != 1, priv := rw != 1, pfn := i }) j q
            = if j = vpn / npp ∧ q = vpn % npp then
                { valid := true, writable := rw != 1, priv := rw != 1, pfn := i }
              else pteAt s.current.pagetable j q := by
          rw [pteAt_setPte, pteAt_ensureDir]
        show ((pteAt (setPte _ _ _ _) j q).valid = true → _) ∧ _
        rw [hpt]
        by_cases hjq : j = vpn / npp ∧ q = vpn % npp
        · rw [if_pos hjq]
          exact ⟨fun _ => hinpf, fun hfalse => by cases hfalse⟩
        · rw [if_neg hjq]
          exact h2 j q

theorem inv_free (npp npf vpn : Nat) (s s2 : State) (hnpp : 0 < npp)
    (hvpn : vpn < npp * npp)
    (hv : (pteAt s.current.pagetable (vpn / npp) (vpn % npp)).valid = true)
    (hs : free_page npp vpn s = some s2)
    (hInv : Inv npp npf s) : Inv npp npf s2 := by
  obtain ⟨h1, h2, h3⟩ := hInv
  have hop : vpn / npp < npp := (Nat.div_lt_iff_lt_mul hnpp).mpr hvpn
  have hip : vpn % npp < npp := Nat.mod_lt vpn hnpp
  cases hd : s.current.pagetable.outer_ptes (vpn / npp) with
  | none =>
      unfold free_page at hs
      simp [hd] at hs
  | some d =>
      have hpte : pteAt s.current.pagetable (vpn / npp) (vpn % npp) = d.ptes (vpn % npp) := by
        simp [pteAt, hd]
      rw [hpte] at hv
      rw [free_page_some npp vpn s d hd] at hs
      cases hs
      refine ⟨?_, ?_, h3⟩
      · intro f
        have hset := mappersPT_setPte npp s.current.pagetable (vpn / npp) (vpn % npp)
          { valid := false, writable := false, priv := false, pfn := 0 } f hop hip
        have hc0 : contrib { valid := false, writable := false, priv := false, pfn := 0 } f
            = 0 := by simp [contrib]
        rw [hc0] at hset
        have hcold : contrib (pteAt s.current.pagetable (vpn / npp) (vpn % npp)) f
            = if (d.ptes (vpn % npp)).pfn = f then 1 else 0 := by
          rw [hpte]
          simp [contrib, hv]
        rw [hcold] at hset
        have hle : 1 ≤ mappersPT npp s.current.pagetable ((d.ptes (vpn % npp)).pfn) := by
          have hh := contrib_le_mappersPT npp s.current.pagetable (vpn / npp) (vpn % npp)
            ((d.ptes (vpn % npp)).pfn) hop hip
          rw [hpte] at hh
          simpa [contrib, hv] using hh
        have hold := h1 f
        have holdpfn := h1 ((d.ptes (vpn % npp)).pfn)
        simp only [totalMappers, poolSum] at hold holdpfn ⊢
        by_cases hf : f = (d.ptes (vpn % npp)).pfn
        · subst hf
          simp only [eq_self_iff_true, if_true, ite_true] at hset hle hold ⊢
          omega
        · have hfo : ¬ (d.ptes (vpn % npp)).pfn = f := fun h => hf h.symm
          simp only [if_neg hf, if_neg hfo] at hset ⊢
          omega
      · intro j q
        have hpt : pteAt (setPte s.current.pagetable (vpn / npp) (vpn % npp)
              { valid := false, writable := false, priv := false, pfn := 0 }) j q
            = if j = vpn / npp ∧ q = vpn % npp then
                { valid := false, writable := false, priv := false, pfn := 0 }
              else pteAt s.current.pagetable j q := pteAt_setPte _ _ _ _ j q
        show ((pteAt (setPte _ _ _ _) j q).valid = true → _) ∧ _
        rw [hpt]
        by_cases hjq : j = vpn / npp ∧ q = vpn % npp
        · rw [if_pos hjq]
          exact ⟨(fun hfalse => by cases hfalse), fun _ => rfl⟩
        · rw [if_neg hjq]
          exact h2 j q

theorem inv_fault (npp npf vpn rw : Nat) (s s2 : State) (b : Bool) (hnpp : 0 < npp)
    (hvpn : vpn < npp * npp)
    (hs : handle_page_fault npp npf vpn rw s = some (s2, b))
    (hInv : Inv npp npf s) : Inv npp npf s2 := by
  obtain ⟨h1, h2, h3⟩ := hInv
  have hop : vpn / npp < npp := (Nat.div_lt_iff_lt_mul hnpp).mpr hvpn
  have hip : vpn % npp < npp := Nat.mod_lt vpn hnpp
  cases hd : s.current.pagetable.outer_ptes (vpn / npp) with
  | none =>
      unfold handle_page_fault at hs
      simp [hd] at hs
  | some d =>
      have hpte : pteAt s.current.pagetable (vpn / npp) (vpn % npp) = d.ptes (vpn % npp) := by
        simp [pteAt, hd]
      by_cases hp : (d.ptes (vpn % npp)).priv = true
      · have hvalid : (d.ptes (vpn % npp)).valid = true := by
          cases hval : (d.ptes (vpn % npp)).valid
          · have hh := (h2 (vpn / npp) (vpn % npp)).2
            rw [hpte] at hh
            exact absurd hp (by simp [hh hval])
          · rfl
        by_cases hc : s.mapcounts (d.ptes (vpn % npp)).pfn = 1
        · rw [hpf_excl npp npf vpn rw s d hd hp hc] at hs
          cases hs
          refine ⟨?_, ?_, h3⟩
          · intro f
            have hset := mappersPT_setPte npp s.current.pagetable (vpn / npp) (vpn % npp)
              { d.ptes (vpn % npp) with writable := true } f hop hip
            rw [hpte] at hset
            simp only [contrib] at hset
            have hold := h1 f
            simp only [totalMappers, poolSum] at hold ⊢
            omega
          · intro j q
            show ((pteAt (setPte _ _ _ _) j q).valid = true → _) ∧ _
            rw [pteAt_setPte]
            by_cases hjq : j = vpn / npp ∧ q = vpn % npp
            · rw [if_pos hjq]
              refine ⟨fun _ => ?_, (fun hfalse => by simp [hvalid] at hfalse)⟩
              have := (h2 (vpn / npp) (vpn % npp)).1
              rw [hpte] at this
              exact this hvalid
            · rw [if_neg hjq]
              exact h2 j q
        · cases hscan : findFreeFrame npf s.mapcounts with
          | none =>
              rw [hpf_shared_none npp npf vpn rw s d hd hp hc hscan] at hs
              cases hs
              exact ⟨h1, h2, h3⟩
          | some i =>
              obtain ⟨hinpf, hizero, -⟩ := findFreeFrame_some npf s.mapcounts i hscan
              rw [hpf_shared_some npp npf vpn rw s d i hd hp hc hscan] at hs
              cases hs
              have hle : 1 ≤ mappersPT npp s.current.pagetable ((d.ptes (vpn % npp)).pfn) := by
                have hh := contrib_le_mappersPT npp s.current.pagetable (vpn / npp) (vpn % npp)
                  ((d.ptes (vpn % npp)).pfn) hop hip
                rw [hpte] at hh
                simpa [contrib, hvalid] using hh
              have hio : ¬ i = (d.ptes (vpn % npp)).pfn := by
                intro heq
                have := h1 ((d.ptes (vpn % npp)).pfn)
                simp only [totalMappers, poolSum] at this
                rw [heq] at hizero
                omega
              refine ⟨?_, ?_, h3⟩
              · intro f
                have hset := mappersPT_setPte npp s.current.pagetable (vpn / npp) (vpn % npp)
                  { d.ptes (vpn % npp) with writable := true, pfn := i } f hop hip
                rw [hpte] at hset
                have hcold : contrib (d.ptes (vpn % npp)) f
                    = if (d.ptes (vpn % npp)).pfn = f then 1 else 0 := by
                  simp [contrib, hvalid]
                have hcnew : contrib { d.ptes (vpn % npp) with writable := true, pfn := i } f
                    = if i = f then 1 else 0 := by
                  simp [contrib, hvalid]
                rw [hcold, hcnew] at hset
                have hold := h1 f
                have holdpfn := h1 ((d.ptes (vpn % npp)).pfn)
                simp only [totalMappers, poolSum] at hold holdpfn ⊢
                by_cases hpf2 : (d.ptes (vpn % npp)).pfn = f
                · have hA : f = (d.ptes (vpn % npp)).pfn := hpf2.symm
                  have hB : ¬ i = f := by rw [← hpf2]; exact hio
                  have hC : ¬ f = i := fun h => hB h.symm
                  simp only [if_pos hpf2, if_pos hA, if_neg hB, if_neg hC] at hset ⊢
                  omega
                · have hA : ¬ f = (d.ptes (vpn % npp)).pfn := fun h => hpf2 h.symm
                  by_cases hB : i = f
                  · have hC : f = i := hB.symm
                    simp only [if_pos hB, if_pos hC, if_neg hpf2, if_neg hA] at hset ⊢
                    omega
                  · have hC : ¬ f = i := fun h => hB h.symm
                    simp only [if_neg hB, if_neg hC, if_neg hpf2, if_neg hA] at hset ⊢
                    omega
              · intro j q
                show ((pteAt (setPte _ _ _ _) j q).valid = true → _) ∧ _
                rw [pteAt_setPte]
                by_cases hjq : j = vpn / npp ∧ q = vpn % npp
                · rw [if_pos hjq]
                  exact ⟨(fun _ => hinpf), (fun hfalse => by simp [hvalid] at hfalse)⟩
                · rw [if_neg hjq]
                  exact h2 j q
      · have hpf : (d.ptes (vpn % npp)).priv = false := by
          cases hpv : (d.ptes (vpn % npp)).priv
          · rfl
          · exact absurd hpv hp
        rw [hpf_nopriv npp npf vpn rw s d hd hpf] at hs
        cases hs
        exact ⟨h1, h2, h3⟩

theorem inv_switch (npp npf pid : Nat) (s : State) (hInv : Inv npp npf s) :
    Inv npp npf (switch_process npp pid s) := by
  obtain ⟨h1, h2, h3⟩ := hInv
  cases hrm : removeFirst pid s.processes with
  | some pr =>
      rw [switch_found npp pid s pr.1 pr.2 (by rw [hrm])]
      have hmem := removeFirst_mem pid s.processes pr.1 pr.2 (by rw [hrm])
      refine ⟨?_, ?_, ?_⟩
      · intro f
        have hsum := removeFirst_sum pid (fun p => mappersPT npp p.pagetable f)
          s.processes pr.1 pr.2 (by rw [hrm])
        have hold := h1 f
        simp only [totalMappers, poolSum] at hold ⊢
        rw [List.map_append, List.sum_append]
        simp only [List.map_cons, List.map_nil, List.sum_cons, List.sum_nil] at hsum ⊢
        omega
      · exact h3 pr.1 hmem.1
      · intro p hp
        rcases List.mem_append.mp hp with hp1 | hp2
        · exact h3 p (hmem.2 p hp1)
        · have hpc : p = s.current := by simpa using hp2
          rw [hpc]
          exact h2
  | none =>
      rw [switch_fork npp pid s hrm]
      refine ⟨?_, ?_, ?_⟩
      · intro f
        have hfc : forkCounts npp s.current.pagetable s.mapcounts f
            = s.mapcounts f + mappersPT npp s.current.pagetable f :=
          forkCounts_eq npp s.current.pagetable s.mapcounts f
        have hchild := mappersPT_forkChild npp s.current.pagetable f
        have hpar := mappersPT_forkParent npp s.current.pagetable f
        have hold := h1 f
        simp only [totalMappers, poolSum] at hold ⊢
        rw [List.map_append, List.sum_append]
        simp only [List.map_cons, List.map_nil, List.sum_cons, List.sum_nil]
        omega
      · intro j q
        show ((pteAt (forkChildPT npp s.current.pagetable) j q).valid = true → _) ∧ _
        rw [pteAt_forkChild]
        by_cases hcond : j < npp ∧ q < npp ∧ (pteAt s.current.pagetable j q).valid = true
        · rw [if_pos hcond]
          exact ⟨(fun _ => (h2 j q).1 hcond.2.2), (fun hfalse => by cases hfalse)⟩
        · rw [if_neg hcond]
          exact ⟨(fun hfalse => by cases hfalse), (fun _ => rfl)⟩
      · intro p hp
        rcases List.mem_append.mp hp with hp1 | hp2
        · exact h3 p hp1
        · have hpp : p = (⟨s.current.pid, forkParentPT npp s.current.pagetable⟩ : Process) := by
            simpa using hp2
          rw [hpp]
          intro j q
          show ((pteAt (forkParentPT npp s.current.pagetable) j q).valid = true → _) ∧ _
          rw [pteAt_forkParent]
          by_cases hcond : j < npp ∧ q < npp ∧ (pteAt s.current.pagetable j q).valid = true
          · rw [if_pos hcond]
            refine ⟨(fun _ => ?_), (fun hfalse => ?_)⟩
            · exact (h2 j q).1 hcond.2.2
            · rw [show ({ pteAt s.current.pagetable j q with writable := false } : PTE).valid
                  = (pteAt s.current.pagetable j q).valid from rfl, hcond.2.2] at hfalse
              cases hfalse
          · rw [if_neg hcond]
            exact h2 j q

theorem inv_init (npp npf : Nat) : Inv npp npf init := by
  refine ⟨?_, ?_, ?_⟩
  · intro f
    have hz : ∀ j q, contrib (pteAt init.current.pagetable j q) f = 0 := by
      intro j q
      simp [init, pteAt, contrib]
    simp only [totalMappers, poolSum, mappersPT]
    rw [Finset.sum_congr rfl (fun j _ => Finset.sum_congr rfl (fun q _ => hz j q))]
    simp [init]
  · intro j q
    constructor
    · intro hvt
      simp [init, pteAt] at hvt
    · intro _
      simp [init, pteAt]
  · intro p hp
    simp [init] at hp

theorem inv_step (npp npf : Nat) (s s2 : State) (o : Op) (hnpp : 0 < npp)
    (hg : guardB npp s o = true) (hs : step npp npf s o = some s2)
    (hInv : Inv npp npf s) : Inv npp npf s2 := by
  cases o with
  | alloc vpn rw =>
      simp only [step, Option.some_inj] at hs
      simp only [guardB, Bool.and_eq_true, decide_eq_true_eq, Bool.not_eq_true'] at hg
      rw [← hs]
      exact inv_alloc npp npf vpn rw s hnpp hg.1 hg.2 hInv
  | free vpn =>
      simp only [step] at hs
      simp only [guardB, Bool.and_eq_true, decide_eq_true_eq] at hg
      exact inv_free npp npf vpn s s2 hnpp hg.1 hg.2 hs hInv
  | fault vpn rw =>
      simp only [step] at hs
      simp only [guardB, decide_eq_true_eq] at hg
      cases hres : handle_page_fault npp npf vpn rw s with
      | none => rw [hres] at hs; cases hs
      | some rb =>
          rw [hres] at hs
          simp only [Option.map_some', Option.some_inj] at hs
          rw [← hs]
          exact inv_fault npp npf vpn rw s rb.1 rb.2 hnpp hg (by rw [hres]) hInv
  | switch pid =>
      simp only [step, Option.some_inj] at hs
      rw [← hs]
      exact inv_switch npp npf pid s hInv

theorem runG_inv (npp npf : Nat) (hnpp : 0 < npp) :
    ∀ (ops : List Op) (s s2 : State), Inv npp npf s → runG npp npf s ops = some s2 →
      Inv npp npf s2 := by
  intro ops
  induction ops with
  | nil =>
      intro s s2 h hrun
      rw [runG] at hrun
      cases hrun
      exact h
  | cons o os ih =>
      intro s s2 h hrun
      rw [runG] at hrun
      by_cases hg : guardB npp s o = true
      · rw [if_pos hg] at hrun
        cases hstep : step npp npf s o with
        | none => rw [hstep] at hrun; cases hrun
        | some s1 =>
            rw [hstep] at hrun
            simp only [Option.some_bind] at hrun
            exact ih s1 s2 (inv_step npp npf s s1 o hnpp hg hstep h) hrun
      · rw [if_neg hg] at hrun
        cases hrun

/-- Claim C10: handle_page_fault is independent of its access-intent
argument: for every state and VPN, any two values of the rw argument give
the same boolean result and the same final state (the C body never reads
rw). -/
theorem C10_fault_rw_independent (npp npf vpn rw1 rw2 : Nat) (s : State) :
    handle_page_fault npp npf vpn rw1 s = handle_page_fault npp npf vpn rw2 s := rfl

/-- Claim C7: at every state in which some frame has reference count zero
(hence at every such point of every allocation sequence), alloc_page
returns the lowest-numbered frame with count zero and maps the VPN's PTE
to it. -/
theorem C7_smallest_pfn (npp npf vpn rw : Nat) (s : State) (g : Nat)
    (hfree : g < npf ∧ s.mapcounts g = 0) :
    ∃ i, (alloc_page npp npf vpn rw s).2 = some i ∧
      i < npf ∧ s.mapcounts i = 0 ∧ (∀ j, j < i → s.mapcounts j ≠ 0) ∧
      pteAt (alloc_page npp npf vpn rw s).1.current.pagetable (vpn / npp) (vpn % npp)
        = { valid := true, writable := rw != 1, priv := rw != 1, pfn := i } := by
  have hsome : (findFreeFrame npf s.mapcounts).isSome = true :=
    findFreeFrame_isSome npf s.mapcounts g hfree.1 hfree.2
  cases hscan : findFreeFrame npf s.mapcounts with
  | none => rw [hscan] at hsome; cases hsome
  | some i =>
      obtain ⟨hi1, hi2, hmin⟩ := findFreeFrame_some npf s.mapcounts i hscan
      refine ⟨i, ?_, hi1, hi2, hmin, ?_⟩
      · rw [alloc_page_some npp npf vpn rw s i hscan]
      · rw [alloc_page_some npp npf vpn rw s i hscan]
        show pteAt (setPte (ensureDir s.current.pagetable (vpn / npp)) (vpn / npp) (vpn % npp)
          { valid := true, writable := rw != 1, priv := rw != 1, pfn := i })
          (vpn / npp) (vpn % npp) = _
        rw [pteAt_setPte]
        simp

/-- Claim C7 witness: on the empty initial state with 4 frames, allocating
VPN 0 read-only picks frame 0 and installs a valid, non-writable PTE. -/
theorem C7_witness :
    ∃ i, (alloc_page 16 4 0 1 init).2 = some i ∧
      i < 4 ∧ init.mapcounts i = 0 ∧ (∀ j, j < i → init.mapcounts j ≠ 0) ∧
      pteAt (alloc_page 16 4 0 1 init).1.current.pagetable (0 / 16) (0 % 16)
        = { valid := true, writable := 1 != 1, priv := 1 != 1, pfn := i } :=
  C7_smallest_pfn 16 4 0 1 init 0 (by decide)

/-- Claim C5: fork (switch_process with a PID absent from the process
set): every outer directory slot that is null in the parent's page table
is also null in the child's page table. -/
theorem C5_fork_no_eager_dirs (npp pid : Nat) (s : State)
    (hpid : ∀ p ∈ s.processes, p.pid ≠ pid) :
    ∀ j, s.current.pagetable.outer_ptes j = none →
      (switch_process npp pid s).current.pagetable.outer_ptes j = none := by
  intro j hj
  rw [switch_fork npp pid s (removeFirst_eq_none pid s.processes hpid)]
  exact forkChild_outer npp s.current.pagetable j hj

/-- Claim C5 witness: forking PID 7 from the initial process (whose outer
slot 0 is unallocated) leaves the child's slot 0 unallocated. -/
theorem C5_witness :
    (switch_process 16 7 init).current.pagetable.outer_ptes 0 = none :=
  C5_fork_no_eager_dirs 16 7 init (fun p hp => absurd hp (List.not_mem_nil p)) 0 rfl

/-- Claim C4 counterexample: a read-only allocation (rw = 1) installs a
PTE with the private (COW-eligibility) bit CLEAR, and a read-write
allocation (rw = 2) installs it SET — the opposite of the claim, which
says private is set exactly when the intent is not write. -/
theorem C4_counterexample :
    (alloc_page 16 4 0 1 init).2 = some 0 ∧
    (pteAt (alloc_page 16 4 0 1 init).1.current.pagetable 0 0).valid = true ∧
    (pteAt (alloc_page 16 4 0 1 init).1.current.pagetable 0 0).writable = false ∧
    (pteAt (alloc_page 16 4 0 1 init).1.current.pagetable 0 0).priv = false ∧
    (alloc_page 16 4 0 2 init).2 = some 0 ∧
    (pteAt (alloc_page 16 4 0 2 init).1.current.pagetable 0 0).writable = true ∧
    (pteAt (alloc_page 16 4 0 2 init).1.current.pagetable 0 0).priv = true := by
  decide

/-- Claim C4 amended: alloc_page marks the new PTE COW-eligible (private)
exactly when the requested intent IS write (rw different from 1): the PTE
is installed valid, with writable and private both equal to the
write-intent flag and pfn equal to the returned frame. -/
theorem C4_priv_iff_write (npp npf vpn rw : Nat) (s : State) (i : Nat)
    (hscan : findFreeFrame npf s.mapcounts = some i) :
    (alloc_page npp npf vpn rw s).2 = some i ∧
    pteAt (alloc_page npp npf vpn rw s).1.current.pagetable (vpn / npp) (vpn % npp)
      = { valid := true, writable := rw != 1, priv := rw != 1, pfn := i } ∧
    ((pteAt (alloc_page npp npf vpn rw s).1.current.pagetable (vpn / npp) (vpn % npp)).priv
      = true ↔ rw ≠ 1) := by
  have hpte : pteAt (alloc_page npp npf vpn rw s).1.current.pagetable (vpn / npp) (vpn % npp)
      = { valid := true, writable := rw != 1, priv := rw != 1, pfn := i } := by
    rw [alloc_page_some npp npf vpn rw s i hscan]
    show pteAt (setPte (ensureDir s.current.pagetable (vpn / npp)) (vpn / npp) (vpn % npp)
      { valid := true, writable := rw != 1, priv := rw != 1, pfn := i })
      (vpn / npp) (vpn % npp) = _
    rw [pteAt_setPte]
    simp
  refine ⟨?_, hpte, ?_⟩
  · rw [alloc_page_some npp npf vpn rw s i hscan]
  · rw [hpte]
    simp [bne_iff_ne]

/-- Claim C4 witness: a write allocation on the empty state yields a
private, writable PTE on frame 0. -/
theorem C4_witness :
    (alloc_page 16 4 0 2 init).2 = some 0 ∧
    pteAt (alloc_page 16 4 0 2 init).1.current.pagetable (0 / 16) (0 % 16)
      = { valid := true, writable := 2 != 1, priv := 2 != 1, pfn := 0 } ∧
    ((pteAt (alloc_page 16 4 0 2 init).1.current.pagetable (0 / 16) (0 % 16)).priv
      = true ↔ 2 ≠ 1) :=
  C4_priv_iff_write 16 4 0 2 init 0 rfl

/-- Claim C6 counterexample: with one frame already exhausted, allocating
a VPN in a not-yet-allocated directory range returns the failure sentinel
but still allocates the inner directory (slot 1 goes from null to
allocated), contradicting the claim that no directory allocation happens
on a failed call. -/
theorem C6_counterexample :
    (∀ f, f < 1 → ¬ ((alloc_page 16 1 0 1 init).1.mapcounts f = 0)) ∧
    (alloc_page 16 1 16 1 (alloc_page 16 1 0 1 init).1).2 = none ∧
    ((alloc_page 16 1 0 1 init).1.current.pagetable.outer_ptes 1).isNone = true ∧
    ((alloc_page 16 1 16 1 (alloc_page 16 1 0 1 init).1).1.current.pagetable.outer_ptes
      1).isSome = true := by
  decide

/-- Claim C6 amended: under exhaustion (every frame count nonzero),
alloc_page returns the sentinel and changes no reference count, no queue
membership, no PTE value and no already-present directory; the only
mutation is that the inner directory covering the requested VPN is
allocated (empty) if it was absent.  handle_page_fault in the COW shared
case (private set, count not 1) returns false with no mutation at all. -/
theorem C6_exhaustion (npp npf vpn vpn2 rw rw2 : Nat) (s : State)
    (hfull : ∀ f, f < npf → s.mapcounts f ≠ 0) :
    (alloc_page npp npf vpn rw s).2 = none ∧
    (alloc_page npp npf vpn rw s).1.mapcounts = s.mapcounts ∧
    (alloc_page npp npf vpn rw s).1.processes = s.processes ∧
    (∀ j q, pteAt (alloc_page npp npf vpn rw s).1.current.pagetable j q
        = pteAt s.current.pagetable j q) ∧
    (∀ j, j ≠ vpn / npp →
      (alloc_page npp npf vpn rw s).1.current.pagetable.outer_ptes j
        = s.current.pagetable.outer_ptes j) ∧
    (∀ d2, s.current.pagetable.outer_ptes (vpn / npp) = some d2 →
      (alloc_page npp npf vpn rw s).1.current.pagetable.outer_ptes (vpn / npp) = some d2) ∧
    (s.current.pagetable.outer_ptes (vpn / npp) = none →
      (alloc_page npp npf vpn rw s).1.current.pagetable.outer_ptes (vpn / npp)
        = some emptyDir) ∧
    (∀ d, s.current.pagetable.outer_ptes (vpn2 / npp) = some d →
      (d.ptes (vpn2 % npp)).priv = true →
      s.mapcounts (d.ptes (vpn2 % npp)).pfn ≠ 1 →
      handle_page_fault npp npf vpn2 rw2 s = some (s, false)) := by
  have hscan : findFreeFrame npf s.mapcounts = none :=
    findFreeFrame_eq_none npf s.mapcounts hfull
  rw [alloc_page_none npp npf vpn rw s hscan]
  refine ⟨rfl, rfl, rfl, ?_, ?_, ?_, ?_, ?_⟩
  · intro j q
    exact pteAt_ensureDir s.current.pagetable (vpn / npp) j q
  · intro j hj
    exact ensureDir_outer_ne s.current.pagetable (vpn / npp) j hj
  · intro d2 hd2
    show (ensureDir s.current.pagetable (vpn / npp)).outer_ptes (vpn / npp) = some d2
    unfold ensureDir
    simp [hd2]
  · intro hnone
    show (ensureDir s.current.pagetable (vpn / npp)).outer_ptes (vpn / npp) = some emptyDir
    unfold ensureDir
    rw [hnone]
    unfold updOuter
    simp
  · intro d hd hp hc
    exact hpf_shared_none npp npf vpn2 rw2 s d hd hp hc hscan

/-- Claim C6 witness: with 1 frame, after a write allocation and a fork
the only frame has count 2; a further allocation fails as described and
the fault on the shared private page is refused without mutation. -/
theorem C6_witness :
    (alloc_page 16 1 32 1 (switch_process 16 2 (alloc_page 16 1 0 2 init).1)).2 = none ∧
    (alloc_page 16 1 32 1 (switch_process 16 2 (alloc_page 16 1 0 2 init).1)).1.mapcounts
      = (switch_process 16 2 (alloc_page 16 1 0 2 init).1).mapcounts ∧
    (alloc_page 16 1 32 1 (switch_process 16 2 (alloc_page 16 1 0 2 init).1)).1.processes
      = (switch_process 16 2 (alloc_page 16 1 0 2 init).1).processes ∧
    (∀ j q, pteAt (alloc_page 16 1 32 1
          (switch_process 16 2 (alloc_page 16 1 0 2 init).1)).1.current.pagetable j q
        = pteAt (switch_process 16 2 (alloc_page 16 1 0 2 init).1).current.pagetable j q) ∧
    (∀ j, j ≠ 32 / 16 →
      (alloc_page 16 1 32 1
          (switch_process 16 2 (alloc_page 16 1 0 2 init).1)).1.current.pagetable.outer_ptes j
        = (switch_process 16 2 (alloc_page 16 1 0 2 init).1).current.pagetable.outer_ptes j) ∧
    (∀ d2, (switch_process 16 2 (alloc_page 16 1 0 2 init).1).current.pagetable.outer_ptes
          (32 / 16) = some d2 →
      (alloc_page 16 1 32 1
          (switch_process 16 2 (alloc_page 16 1 0 2 init).1)).1.current.pagetable.outer_ptes
          (32 / 16) = some d2) ∧
    ((switch_process 16 2 (alloc_page 16 1 0 2 init).1).current.pagetable.outer_ptes
          (32 / 16) = none →
      (alloc_page 16 1 32 1
          (switch_process 16 2 (alloc_page 16 1 0 2 init).1)).1.current.pagetable.outer_ptes
          (32 / 16) = some emptyDir) ∧
    (∀ d, (switch_process 16 2 (alloc_page 16 1 0 2 init).1).current.pagetable.outer_ptes
          (0 / 16) = some d →
      (d.ptes (0 % 16)).priv = true →
      (switch_process 16 2 (alloc_page 16 1 0 2 init).1).mapcounts (d.ptes (0 % 16)).pfn ≠ 1 →
      handle_page_fault 16 1 0 3 (switch_process 16 2 (alloc_page 16 1 0 2 init).1)
        = some ((switch_process 16 2 (alloc_page 16 1 0 2 init).1), false)) :=
  C6_exhaustion 16 1 32 0 1 3 (switch_process 16 2 (alloc_page 16 1 0 2 init).1) (by decide)

/-- Claim C1: fork (switch_process with a PID not in the process set):
for a VPN valid in the parent, the child gets an equally valid PTE with
the same frame number and private bit, both the child's entry and the
parent's entry (now at the tail of the queue) are non-writable regardless
of prior writability, and the frame's reference count grows by the number
of parent mappings of that frame — by exactly one when this VPN is the
parent's only mapping of it, so a count of 1 becomes 2. -/
theorem C1_fork_cow_setup (npp pid vpn : Nat) (s : State)
    (hnpp : 0 < npp) (hvpn : vpn < npp * npp)
    (hpid : ∀ p ∈ s.processes, p.pid ≠ pid)
    (hv : (pteAt s.current.pagetable (vpn / npp) (vpn % npp)).valid = true) :
    (switch_process npp pid s).current.pid = pid ∧
    pteAt (switch_process npp pid s).current.pagetable (vpn / npp) (vpn % npp)
      = { valid := true, writable := false,
          priv := (pteAt s.current.pagetable (vpn / npp) (vpn % npp)).priv,
          pfn := (pteAt s.current.pagetable (vpn / npp) (vpn % npp)).pfn } ∧
    (∃ par, (switch_process npp pid s).processes = s.processes ++ [par] ∧
      par.pid = s.current.pid ∧
      pteAt par.pagetable (vpn / npp) (vpn % npp)
        = { pteAt s.current.pagetable (vpn / npp) (vpn % npp) with writable := false }) ∧
    (switch_process npp pid s).mapcounts (pteAt s.current.pagetable (vpn / npp) (vpn % npp)).pfn
      = s.mapcounts (pteAt s.current.pagetable (vpn / npp) (vpn % npp)).pfn
        + mappersPT npp s.current.pagetable
            (pteAt s.current.pagetable (vpn / npp) (vpn % npp)).pfn ∧
    (mappersPT npp s.current.pagetable
        (pteAt s.current.pagetable (vpn / npp) (vpn % npp)).pfn = 1 →
      (switch_process npp pid s).mapcounts
          (pteAt s.current.pagetable (vpn / npp) (vpn % npp)).pfn
        = s.mapcounts (pteAt s.current.pagetable (vpn / npp) (vpn % npp)).pfn + 1 ∧
      (s.mapcounts (pteAt s.current.pagetable (vpn / npp) (vpn % npp)).pfn = 1 →
        (switch_process npp pid s).mapcounts
          (pteAt s.current.pagetable (vpn / npp) (vpn % npp)).pfn = 2)) := by
  have hop : vpn / npp < npp := (Nat.div_lt_iff_lt_mul hnpp).mpr hvpn
  have hip : vpn % npp < npp := Nat.mod_lt vpn hnpp
  have hrm : removeFirst pid s.processes = none := removeFirst_eq_none pid s.processes hpid
  rw [switch_fork npp pid s hrm]
  refine ⟨rfl, ?_, ?_, ?_, ?_⟩
  · show pteAt (forkChildPT npp s.current.pagetable) (vpn / npp) (vpn % npp) = _
    rw [pteAt_forkChild]
    rw [if_pos ⟨hop, hip, hv⟩]
  · refine ⟨⟨s.current.pid, forkParentPT npp s.current.pagetable⟩, rfl, rfl, ?_⟩
    show pteAt (forkParentPT npp s.current.pagetable) (vpn / npp) (vpn % npp) = _
    rw [pteAt_forkParent]
    rw [if_pos ⟨hop, hip, hv⟩]
  · exact forkCounts_eq npp s.current.pagetable s.mapcounts _
  · intro huniq
    have heq := forkCounts_eq npp s.current.pagetable s.mapcounts
      ((pteAt s.current.pagetable (vpn / npp) (vpn % npp)).pfn)
    rw [huniq] at heq
    exact ⟨heq, fun h1 => heq.trans (by rw [h1])⟩

/-- Claim C1 witness: fork PID 2 after a single write allocation of VPN 0;
the shared frame 0 goes from count 1 to count 2 and both entries are
non-writable. -/
theorem C1_witness :
    (switch_process 16 2 (alloc_page 16 4 0 2 init).1).current.pid = 2 ∧
    pteAt (switch_process 16 2 (alloc_page 16 4 0 2 init).1).current.pagetable
        (0 / 16) (0 % 16)
      = { valid := true, writable := false,
          priv := (pteAt (alloc_page 16 4 0 2 init).1.current.pagetable (0 / 16) (0 % 16)).priv,
          pfn := (pteAt (alloc_page 16 4 0 2 init).1.current.pagetable (0 / 16) (0 % 16)).pfn } ∧
    (∃ par, (switch_process 16 2 (alloc_page 16 4 0 2 init).1).processes
        = (alloc_page 16 4 0 2 init).1.processes ++ [par] ∧
      par.pid = (alloc_page 16 4 0 2 init).1.current.pid ∧
      pteAt par.pagetable (0 / 16) (0 % 16)
        = { pteAt (alloc_page 16 4 0 2 init).1.current.pagetable (0 / 16) (0 % 16) with
            writable := false }) ∧
    (switch_process 16 2 (alloc_page 16 4 0 2 init).1).mapcounts
        (pteAt (alloc_page 16 4 0 2 init).1.current.pagetable (0 / 16) (0 % 16)).pfn
      = (alloc_page 16 4 0 2 init).1.mapcounts
          (pteAt (alloc_page 16 4 0 2 init).1.current.pagetable (0 / 16) (0 % 16)).pfn
        + mappersPT 16 (alloc_page 16 4 0 2 init).1.current.pagetable
            (pteAt (alloc_page 16 4 0 2 init).1.current.pagetable (0 / 16) (0 % 16)).pfn ∧
    (mappersPT 16 (alloc_page 16 4 0 2 init).1.current.pagetable
        (pteAt (alloc_page 16 4 0 2 init).1.current.pagetable (0 / 16) (0 % 16)).pfn = 1 →
      (switch_process 16 2 (alloc_page 16 4 0 2 init).1).mapcounts
          (pteAt (alloc_page 16 4 0 2 init).1.current.pagetable (0 / 16) (0 % 16)).pfn
        = (alloc_page 16 4 0 2 init).1.mapcounts
            (pteAt (alloc_page 16 4 0 2 init).1.current.pagetable (0 / 16) (0 % 16)).pfn + 1 ∧
      ((alloc_page 16 4 0 2 init).1.mapcounts
          (pteAt (alloc_page 16 4 0 2 init).1.current.pagetable (0 / 16) (0 % 16)).pfn = 1 →
        (switch_process 16 2 (alloc_page 16 4 0 2 init).1).mapcounts
          (pteAt (alloc_page 16 4 0 2 init).1.current.pagetable (0 / 16) (0 % 16)).pfn = 2)) :=
  C1_fork_cow_setup 16 2 0 (alloc_page 16 4 0 2 init).1 (by decide) (by decide)
    (fun p hp => absurd hp (List.not_mem_nil p)) (by decide)

/-- Claim C2: handle_page_fault on a VPN whose PTE exists (directory
present): if the PTE is not COW-eligible it returns false and changes
nothing; if it is COW-eligible and the frame count is 1 it only marks the
PTE writable and returns true (no rebinding, no count change); if it is
COW-eligible, the count exceeds 1 and a free frame exists, it rebinds the
PTE to the lowest free frame whose count becomes 1, decrements the old
frame's count by one, marks it writable, returns true, and leaves the
queue, every other PTE and every other frame count unchanged. -/
theorem C2_fault_cases (npp npf vpn rw : Nat) (s : State) (d : PteDirectory)
    (hd : s.current.pagetable.outer_ptes (vpn / npp) = some d) :
    ((d.ptes (vpn % npp)).priv = false →
      handle_page_fault npp npf vpn rw s = some (s, false)) ∧
    ((d.ptes (vpn % npp)).priv = true →
      s.mapcounts (d.ptes (vpn % npp)).pfn = 1 →
      ∃ s2, handle_page_fault npp npf vpn rw s = some (s2, true) ∧
        s2.mapcounts = s.mapcounts ∧
        s2.processes = s.processes ∧
        pteAt s2.current.pagetable (vpn / npp) (vpn % npp)
          = { d.ptes (vpn % npp) with writable := true } ∧
        (∀ j q, ¬(j = vpn / npp ∧ q = vpn % npp) →
          pteAt s2.current.pagetable j q = pteAt s.current.pagetable j q)) ∧
    ((d.ptes (vpn % npp)).priv = true →
      1 < s.mapcounts (d.ptes (vpn % npp)).pfn →
      (∃ g, g < npf ∧ s.mapcounts g = 0) →
      ∃ s2 i, handle_page_fault npp npf vpn rw s = some (s2, true) ∧
        i < npf ∧ s.mapcounts i = 0 ∧ (∀ j, j < i → s.mapcounts j ≠ 0) ∧
        pteAt s2.current.pagetable (vpn / npp) (vpn % npp)
          = { d.ptes (vpn % npp) with writable := true, pfn := i } ∧
        s2.mapcounts i = 1 ∧
        s2.mapcounts (d.ptes (vpn % npp)).pfn + 1 = s.mapcounts (d.ptes (vpn % npp)).pfn ∧
        (∀ f, f ≠ i → f ≠ (d.ptes (vpn % npp)).pfn → s2.mapcounts f = s.mapcounts f) ∧
        s2.processes = s.processes ∧
        (∀ j q, ¬(j = vpn / npp ∧ q = vpn % npp) →
          pteAt s2.current.pagetable j q = pteAt s.current.pagetable j q)) := by
  refine ⟨?_, ?_, ?_⟩
  · intro hp
    exact hpf_nopriv npp npf vpn rw s d hd hp
  · intro hp hc
    refine ⟨_, hpf_excl npp npf vpn rw s d hd hp hc, rfl, rfl, ?_, ?_⟩
    · show pteAt (setPte s.current.pagetable (vpn / npp) (vpn % npp)
        { d.ptes (vpn % npp) with writable := true }) (vpn / npp) (vpn % npp) = _
      rw [pteAt_setPte]
      simp
    · intro j q hjq
      show pteAt (setPte s.current.pagetable (vpn / npp) (vpn % npp)
        { d.ptes (vpn % npp) with writable := true }) j q = _
      rw [pteAt_setPte, if_neg hjq]
  · intro hp hc hfree
    obtain ⟨g, hg1, hg2⟩ := hfree
    have hsome : (findFreeFrame npf s.mapcounts).isSome = true :=
      findFreeFrame_isSome npf s.mapcounts g hg1 hg2
    cases hscan : findFreeFrame npf s.mapcounts with
    | none => rw [hscan] at hsome; cases hsome
    | some i =>
        obtain ⟨hi1, hi2, hmin⟩ := findFreeFrame_some npf s.mapcounts i hscan
        have hne : ¬ ((d.ptes (vpn % npp)).pfn = i) := by
          intro heq
          rw [heq] at hc
          omega
        refine ⟨_, i, hpf_shared_some npp npf vpn rw s d i hd hp (by omega) hscan,
          hi1, hi2, hmin, ?_, ?_, ?_, ?_, rfl, ?_⟩
        · show pteAt (setPte s.current.pagetable (vpn / npp) (vpn % npp)
            { d.ptes (vpn % npp) with writable := true, pfn := i }) (vpn / npp) (vpn % npp) = _
          rw [pteAt_setPte]
          simp
        · show (if i = (d.ptes (vpn % npp)).pfn then
              (if i = i then s.mapcounts i + 1 else s.mapcounts i) - 1
            else (if i = i then s.mapcounts i + 1 else s.mapcounts i)) = 1
          have hne2 : ¬ (i = (d.ptes (vpn % npp)).pfn) := fun h => hne h.symm
          rw [if_neg hne2, if_pos rfl, hi2]
        · show (if (d.ptes (vpn % npp)).pfn = (d.ptes (vpn % npp)).pfn then
              (if (d.ptes (vpn % npp)).pfn = i then
                s.mapcounts (d.ptes (vpn % npp)).pfn + 1
              else s.mapcounts (d.ptes (vpn % npp)).pfn) - 1
            else (if (d.ptes (vpn % npp)).pfn = i then
                s.mapcounts (d.ptes (vpn % npp)).pfn + 1
              else s.mapcounts (d.ptes (vpn % npp)).pfn)) + 1
            = s.mapcounts (d.ptes (vpn % npp)).pfn
          rw [if_pos rfl, if_neg hne]
          omega
        · intro f hf1 hf2
          show (if f = (d.ptes (vpn % npp)).pfn then
              (if f = i then s.mapcounts f + 1 else s.mapcounts f) - 1
            else (if f = i then s.mapcounts f + 1 else s.mapcounts f)) = s.mapcounts f
          rw [if_neg hf2, if_neg hf1]
        · intro j q hjq
          show pteAt (setPte s.current.pagetable (vpn / npp) (vpn % npp)
            { d.ptes (vpn % npp) with writable := true, pfn := i }) j q = _
          rw [pteAt_setPte, if_neg hjq]

/-- Claim C2 witness: after a write allocation of VPN 0 and a fork, the
shared frame has count 2; the child's write fault on VPN 0 rebinds it to
the lowest free frame with count 1, drops the old count to 1 and touches
nothing else. -/
theorem C2_witness :
    ∃ s2 i, handle_page_fault 16 4 0 2 (switch_process 16 2 (alloc_page 16 4 0 2 init).1)
        = some (s2, true) ∧
      i < 4 ∧ (switch_process 16 2 (alloc_page 16 4 0 2 init).1).mapcounts i = 0 ∧
      (∀ j, j < i →
        (switch_process 16 2 (alloc_page 16 4 0 2 init).1).mapcounts j ≠ 0) ∧
      pteAt s2.current.pagetable (0 / 16) (0 % 16)
        = { (((switch_process 16 2 (alloc_page 16 4 0 2 init).1).current.pagetable.outer_ptes
              (0 / 16)).getD emptyDir).ptes (0 % 16) with writable := true, pfn := i } ∧
      s2.mapcounts i = 1 ∧
      s2.mapcounts ((((switch_process 16 2 (alloc_page 16 4 0 2 init).1).current.pagetable.outer_ptes
              (0 / 16)).getD emptyDir).ptes (0 % 16)).pfn + 1
        = (switch_process 16 2 (alloc_page 16 4 0 2 init).1).mapcounts
            ((((switch_process 16 2 (alloc_page 16 4 0 2 init).1).current.pagetable.outer_ptes
              (0 / 16)).getD emptyDir).ptes (0 % 16)).pfn ∧
      (∀ f, f ≠ i →
        f ≠ ((((switch_process 16 2 (alloc_page 16 4 0 2 init).1).current.pagetable.outer_ptes
              (0 / 16)).getD emptyDir).ptes (0 % 16)).pfn →
        s2.mapcounts f = (switch_process 16 2 (alloc_page 16 4 0 2 init).1).mapcounts f) ∧
      s2.processes = (switch_process 16 2 (alloc_page 16 4 0 2 init).1).processes ∧
      (∀ j q, ¬(j = 0 / 16 ∧ q = 0 % 16) →
        pteAt s2.current.pagetable j q
          = pteAt (switch_process 16 2 (alloc_page 16 4 0 2 init).1).current.pagetable j q) :=
  (C2_fault_cases 16 4 0 2 (switch_process 16 2 (alloc_page 16 4 0 2 init).1)
      (((switch_process 16 2 (alloc_page 16 4 0 2 init).1).current.pagetable.outer_ptes
        (0 / 16)).getD emptyDir) (by rfl)).2.2
    (by decide) (by decide) ⟨2, by decide, by decide⟩

/-- Claim C3 counterexample: the conservation equality fails for the
sequence that calls alloc_page twice on the same VPN starting from the
empty state: the second call overwrites the still-valid PTE without
releasing its frame, leaving 2 as the sum of reference counts but only 1
valid PTE. -/
theorem C3_counterexample :
    (run 16 4 init [Op.alloc 0 1, Op.alloc 0 1]).isSome = true ∧
    ¬ ((∑ f ∈ Finset.range 4,
          ((run 16 4 init [Op.alloc 0 1, Op.alloc 0 1]).getD init).mapcounts f)
        = totalValid 16 ((run 16 4 init [Op.alloc 0 1, Op.alloc 0 1]).getD init)) := by
  refine ⟨by decide, by decide⟩

/-- Claim C3 amended: conservation holds for every sequence of the four
operations that respects the usage guards (VPNs within the two-level
range, alloc_page only on VPNs without a live mapping, free_page only on
live mappings): starting from the empty state, after any such sequence
the sum of reference counts over all frames equals the number of valid
PTEs across the current process and the process set; each guarded
operation preserves the equality. -/
theorem C3_conservation_guarded (npp npf : Nat) (ops : List Op) (s2 : State)
    (hnpp : 0 < npp) (hrun : runG npp npf init ops = some s2) :
    ∑ f ∈ Finset.range npf, s2.mapcounts f = totalValid npp s2 :=
  conservation_of_inv npp npf s2
    (runG_inv npp npf hnpp ops init s2 (inv_init npp npf) hrun)

/-- Claim C3 witness: a guarded sequence exercising allocation, fork and
COW fault resolution keeps the reference-count sum equal to the number of
valid PTEs. -/
theorem C3_witness :
    ∑ f ∈ Finset.range 4,
        ((runG 16 4 init [Op.alloc 0 1, Op.alloc 1 2, Op.switch 5, Op.fault 1 2]).getD
          init).mapcounts f
      = totalValid 16
          ((runG 16 4 init [Op.alloc 0 1, Op.alloc 1 2, Op.switch 5, Op.fault 1 2]).getD
            init) :=
  C3_conservation_guarded 16 4 [Op.alloc 0 1, Op.alloc 1 2, Op.switch 5, Op.fault 1 2]
    ((runG 16 4 init [Op.alloc 0 1, Op.alloc 1 2, Op.switch 5, Op.fault 1 2]).getD init)
    (by decide) (by rfl)

/-- Claim C8: free_page on a valid mapping clears valid, writable and the
private bit and zeroes the frame number, decrements exactly the count of
the frame the PTE held (read before clearing) by one, and leaves every
other frame count, every other PTE and the whole process set unchanged —
in particular other processes' mappings of a shared frame stay intact. -/
theorem C8_free_clears_and_decrements (npp vpn : Nat) (s : State) (d : PteDirectory)
    (hd : s.current.pagetable.outer_ptes (vpn / npp) = some d)
    (hv : (d.ptes (vpn % npp)).valid = true)
    (hc : 1 ≤ s.mapcounts (d.ptes (vpn % npp)).pfn) :
    ∃ s2, free_page npp vpn s = some s2 ∧
      pteAt s2.current.pagetable (vpn / npp) (vpn % npp)
        = { valid := false, writable := false, priv := false, pfn := 0 } ∧
      s2.mapcounts (d.ptes (vpn % npp)).pfn + 1 = s.mapcounts (d.ptes (vpn % npp)).pfn ∧
      (∀ f, f ≠ (d.ptes (vpn % npp)).pfn → s2.mapcounts f = s.mapcounts f) ∧
      s2.processes = s.processes ∧
      s2.current.pid = s.current.pid ∧
      (∀ j q, ¬(j = vpn / npp ∧ q = vpn % npp) →
        pteAt s2.current.pagetable j q = pteAt s.current.pagetable j q) := by
  refine ⟨_, free_page_some npp vpn s d hd, ?_, ?_, ?_, rfl, rfl, ?_⟩
  · show pteAt (setPte s.current.pagetable (vpn / npp) (vpn % npp)
      { valid := false, writable := false, priv := false, pfn := 0 }) (vpn / npp) (vpn % npp)
      = _
    rw [pteAt_setPte]
    simp
  · show (if (d.ptes (vpn % npp)).pfn = (d.ptes (vpn % npp)).pfn then
        s.mapcounts (d.ptes (vpn % npp)).pfn - 1
      else s.mapcounts (d.ptes (vpn % npp)).pfn) + 1
      = s.mapcounts (d.ptes (vpn % npp)).pfn
    rw [if_pos rfl]
    omega
  · intro f hf
    show (if f = (d.ptes (vpn % npp)).pfn then s.mapcounts f - 1 else s.mapcounts f)
      = s.mapcounts f
    rw [if_neg hf]
  · intro j q hjq
    show pteAt (setPte s.current.pagetable (vpn / npp) (vpn % npp)
      { valid := false, writable := false, priv := false, pfn := 0 }) j q = _
    rw [pteAt_setPte, if_neg hjq]

/-- Claim C8 witness: the child (current after a fork) frees its mapping
of the shared frame 0; the count drops from 2 to 1 and the parent's entry
in the process set is untouched. -/
theorem C8_witness :
    ∃ s2, free_page 16 0 (switch_process 16 2 (alloc_page 16 4 0 2 init).1) = some s2 ∧
      pteAt s2.current.pagetable (0 / 16) (0 % 16)
        = { valid := false, writable := false, priv := false, pfn := 0 } ∧
      s2.mapcounts ((((switch_process 16 2 (alloc_page 16 4 0 2 init).1).current.pagetable.outer_ptes
            (0 / 16)).getD emptyDir).ptes (0 % 16)).pfn + 1
        = (switch_process 16 2 (alloc_page 16 4 0 2 init).1).mapcounts
            ((((switch_process 16 2 (alloc_page 16 4 0 2 init).1).current.pagetable.outer_ptes
              (0 / 16)).getD emptyDir).ptes (0 % 16)).pfn ∧
      (∀ f, f ≠ ((((switch_process 16 2 (alloc_page 16 4 0 2 init).1).current.pagetable.outer_ptes
            (0 / 16)).getD emptyDir).ptes (0 % 16)).pfn →
        s2.mapcounts f = (switch_process 16 2 (alloc_page 16 4 0 2 init).1).mapcounts f) ∧
      s2.processes = (switch_process 16 2 (alloc_page 16 4 0 2 init).1).processes ∧
      s2.current.pid = (switch_process 16 2 (alloc_page 16 4 0 2 init).1).current.pid ∧
      (∀ j q, ¬(j = 0 / 16 ∧ q = 0 % 16) →
        pteAt s2.current.pagetable j q
          = pteAt (switch_process 16 2 (alloc_page 16 4 0 2 init).1).current.pagetable j q) :=
  C8_free_clears_and_decrements 16 0 (switch_process 16 2 (alloc_page 16 4 0 2 init).1)
    (((switch_process 16 2 (alloc_page 16 4 0 2 init).1).current.pagetable.outer_ptes
      (0 / 16)).getD emptyDir) (by rfl) (by decide) (by decide)

/-- Claim C9: a switch to a PID present in the process set changes no
frame reference count and no process's page table: the new current is the
dequeued process unchanged, the pool of processes (current plus queue) is
merely permuted, and switching from A to an existing B and back to A
(PIDs unique) restores A as current with its page table contents exactly
as before and the counts unchanged. -/
theorem C9_switch_roundtrip (npp pidB : Nat) (s : State) (p : Process)
    (rest : List Process)
    (hrm : removeFirst pidB s.processes = some (p, rest))
    (huniq : ∀ q ∈ s.processes, q.pid ≠ s.current.pid) :
    (switch_process npp pidB s).mapcounts = s.mapcounts ∧
    (switch_process npp pidB s).current = p ∧
    ((switch_process npp pidB s).current :: (switch_process npp pidB s).processes).Perm
      (s.current :: s.processes) ∧
    (switch_process npp s.current.pid (switch_process npp pidB s)).current = s.current ∧
    (switch_process npp s.current.pid (switch_process npp pidB s)).mapcounts = s.mapcounts ∧
    ((switch_process npp s.current.pid (switch_process npp pidB s)).current ::
        (switch_process npp s.current.pid (switch_process npp pidB s)).processes).Perm
      (s.current :: s.processes) := by
  have hmem := removeFirst_mem pidB s.processes p rest hrm
  have hperm := removeFirst_perm pidB s.processes p rest hrm
  have hs1 : switch_process npp pidB s
      = { current := p, processes := rest ++ [s.current], mapcounts := s.mapcounts } :=
    switch_found npp pidB s p rest hrm
  have hrest : ∀ x ∈ rest, x.pid ≠ s.current.pid := fun x hx => huniq x (hmem.2 x hx)
  have hrm2 : removeFirst s.current.pid (rest ++ [s.current]) = some (s.current, rest) :=
    removeFirst_append_last s.current.pid s.current rfl rest hrest
  have hs2 : switch_process npp s.current.pid (switch_process npp pidB s)
      = { current := s.current, processes := rest ++ [p], mapcounts := s.mapcounts } := by
    rw [hs1]
    exact switch_found npp s.current.pid
      { current := p, processes := rest ++ [s.current], mapcounts := s.mapcounts }
      s.current rest hrm2
  have hpermappend : (rest ++ [s.current]).Perm (s.current :: rest) :=
    List.perm_append_singleton s.current rest
  refine ⟨by rw [hs1], by rw [hs1], ?_, by rw [hs2], by rw [hs2], ?_⟩
  · rw [hs1]
    refine List.Perm.trans (List.Perm.cons p hpermappend) ?_
    refine List.Perm.trans (List.Perm.swap s.current p rest) ?_
    exact List.Perm.cons s.current hperm.symm
  · rw [hs2]
    refine List.Perm.cons s.current ?_
    refine List.Perm.trans (List.perm_append_singleton p rest) ?_
    exact hperm.symm

/-- Claim C9 witness: with current PID 0 and PID 1 ready, switching 0 to 1
and back to 0 restores the original current process and counts; no table
or count changes on the way. -/
theorem C9_witness :
    (switch_process 16 1 (⟨⟨0, ⟨fun _ => none⟩⟩,
        [⟨1, ⟨fun _ => none⟩⟩], fun _ => 0⟩ : State)).mapcounts
      = (⟨⟨0, ⟨fun _ => none⟩⟩, [⟨1, ⟨fun _ => none⟩⟩], fun _ => 0⟩ : State).mapcounts ∧
    (switch_process 16 1 (⟨⟨0, ⟨fun _ => none⟩⟩,
        [⟨1, ⟨fun _ => none⟩⟩], fun _ => 0⟩ : State)).current
      = ⟨1, ⟨fun _ => none⟩⟩ ∧
    ((switch_process 16 1 (⟨⟨0, ⟨fun _ => none⟩⟩,
        [⟨1, ⟨fun _ => none⟩⟩], fun _ => 0⟩ : State)).current ::
      (switch_process 16 1 (⟨⟨0, ⟨fun _ => none⟩⟩,
        [⟨1, ⟨fun _ => none⟩⟩], fun _ => 0⟩ : State)).processes).Perm
      ((⟨⟨0, ⟨fun _ => none⟩⟩, [⟨1, ⟨fun _ => none⟩⟩], fun _ => 0⟩ : State).current ::
        (⟨⟨0, ⟨fun _ => none⟩⟩, [⟨1, ⟨fun _ => none⟩⟩], fun _ => 0⟩ : State).processes) ∧
    (switch_process 16 (⟨⟨0, ⟨fun _ => none⟩⟩,
        [⟨1, ⟨fun _ => none⟩⟩], fun _ => 0⟩ : State).current.pid
      (switch_process 16 1 (⟨⟨0, ⟨fun _ => none⟩⟩,
        [⟨1, ⟨fun _ => none⟩⟩], fun _ => 0⟩ : State))).current
      = (⟨⟨0, ⟨fun _ => none⟩⟩, [⟨1, ⟨fun _ => none⟩⟩], fun _ => 0⟩ : State).current ∧
    (switch_process 16 (⟨⟨0, ⟨fun _ => none⟩⟩,
        [⟨1, ⟨fun _ => none⟩⟩], fun _ => 0⟩ : State).current.pid
      (switch_process 16 1 (⟨⟨0, ⟨fun _ => none⟩⟩,
        [⟨1, ⟨fun _ => none⟩⟩], fun _ => 0⟩ : State))).mapcounts
      = (⟨⟨0, ⟨fun _ => none⟩⟩, [⟨1, ⟨fun _ => none⟩⟩], fun _ => 0⟩ : State).mapcounts ∧
    ((switch_process 16 (⟨⟨0, ⟨fun _ => none⟩⟩,
        [⟨1, ⟨fun _ => none⟩⟩], fun _ => 0⟩ : State).current.pid
      (switch_process 16 1 (⟨⟨0, ⟨fun _ => none⟩⟩,
        [⟨1, ⟨fun _ => none⟩⟩], fun _ => 0⟩ : State))).current ::
      (switch_process 16 (⟨⟨0, ⟨fun _ => none⟩⟩,
        [⟨1, ⟨fun _ => none⟩⟩], fun _ => 0⟩ : State).current.pid
      (switch_process 16 1 (⟨⟨0, ⟨fun _ => none⟩⟩,
        [⟨1, ⟨fun _ => none⟩⟩], fun _ => 0⟩ : State))).processes).Perm
      ((⟨⟨0, ⟨fun _ => none⟩⟩, [⟨1, ⟨fun _ => none⟩⟩], fun _ => 0⟩ : State).current ::
        (⟨⟨0, ⟨fun _ => none⟩⟩, [⟨1, ⟨fun _ => none⟩⟩], fun _ => 0⟩ : State).processes) :=
  C9_switch_roundtrip 16 1 (⟨⟨0, ⟨fun _ => none⟩⟩, [⟨1, ⟨fun _ => none⟩⟩], fun _ => 0⟩ : State)
    ⟨1, ⟨fun _ => none⟩⟩ [] rfl
    (fun q hq => by
      have hq2 : q = (⟨1, ⟨fun _ => none⟩⟩ : Process) := by simpa using hq
      rw [hq2]
      decide)

end VM
